import Mathlib

/-!
Verification of the Orangebeard Vitest reporter core
(`src/reporter/OrangebeardVitestReporter.ts` and `src/reporter/utils.ts`).

The reporter is a single-threaded, event-driven stateful class that maps
Vitest lifecycle callbacks onto calls against the Orangebeard client.  We
shallowly embed it as a pure state machine: the mutable fields of the class
become a `Reporter` record, each event callback becomes a function
`Reporter → input → Reporter × List ClientCall` (plus an `Except` component
where the TypeScript can throw), and every call made against the
`OrangebeardAsyncV3Client` is recorded as a `ClientCall` trace event.

Modelling conventions, noted once here:
* The Orangebeard client (`OrangebeardAsyncV3Client`) generates and returns
  identifiers synchronously (it queues the network work internally).  We model
  the identifiers it hands back as consecutive naturals drawn from a
  `nextUuid` counter kept in the state; only identifiers the reporter actually
  stores or reuses consume the counter.
* Ambient effects are passed in as explicit oracles: `rel` stands for
  `path.relative(process.cwd(), ·)`, the `snippet` argument to
  `onTestCaseResult` stands for the outcome of `utils.getCodeSnippet` at the
  test's location (`none` = it threw, caught by the reporter), and the result
  of `utils.getBytes` for a pending upload is supplied at `onTestRunEnd` as a
  file-system oracle.
* Timestamps (`getTime()`) come from the ambient clock and are carried by no
  claim, so trace events omit them.
* Several core `String` bundled operations do not reduce in the kernel, so
  character-level equivalents (`strToLower`, `strContains`, ...) are defined
  and used; each mirrors the JavaScript operation used by the source.
-/

namespace OrangebeardVitest

/-- Status values of `FinishTest.Status` used by the reporter. -/
inductive TestStatus where
  | PASSED
  | FAILED
  | SKIPPED
  | STOPPED
  | TIMED_OUT
deriving DecidableEq, Repr

/-- Test types of `StartTest.TestType`. -/
inductive TestType where
  | BEFORE
  | TEST
  | AFTER
deriving DecidableEq, Repr

/-- Log levels of `Log.LogLevel` used by the reporter. -/
inductive LogLevel where
  | INFO
  | ERROR
  | WARN
  | DEBUG
deriving DecidableEq, Repr

/-- Log formats of `Log.LogFormat`. -/
inductive LogFormat where
  | PLAIN_TEXT
  | MARKDOWN
deriving DecidableEq, Repr

/-! ### Character-level string helpers

These mirror the JavaScript string primitives the source uses; they are
defined over `List Char` so that concrete runs reduce in the kernel. -/

/-- Whether `pat` occurs at the start of `l` (segment-of-list check). -/
def listLeadEq : List Char → List Char → Bool
  | [], _ => true
  | _ :: _, [] => false
  | a :: as, b :: bs => a == b && listLeadEq as bs

/-- Whether `pat` occurs anywhere in `l`; mirrors JavaScript
`String.prototype.includes`. -/
def listContainsSeg (pat : List Char) : List Char → Bool
  | [] => listLeadEq pat []
  | l@(_ :: rest) => listLeadEq pat l || listContainsSeg pat rest

/-- JavaScript `s.includes(pat)`. -/
def strContains (s pat : String) : Bool := listContainsSeg pat.data s.data

/-- JavaScript `s.toLowerCase()` (ASCII-accurate). -/
def strToLower (s : String) : String := String.mk (s.data.map Char.toLower)

/-- JavaScript `s.trim()`. -/
def strTrim (s : String) : String :=
  String.mk (((s.data.dropWhile Char.isWhitespace).reverse.dropWhile Char.isWhitespace).reverse)

/-- JavaScript `s.endsWith(' ')`. -/
def endsWithSpace (s : String) : Bool := s.data.getLast? == some ' '

/-- JavaScript `s.replace(/\n/g, '  \n')` as used by `ansiToMarkdown`. -/
def mdNewlines (s : String) : String :=
  String.mk (s.data.flatMap fun c => if c = '\n' then [' ', ' ', '\n'] else [c])

/-- JavaScript `s.replace(/\|/g, '\\|')` from the coverage formatter fallback. -/
def escapePipes (s : String) : String :=
  String.mk (s.data.flatMap fun c => if c = '|' then ['\\', '|'] else [c])

/-- Split on `/` or `\` characters; mirrors `path.split(/[\\/]/)`. -/
def splitOnSlash : List Char → List (List Char)
  | [] => [[]]
  | c :: rest =>
    let r := splitOnSlash rest
    if c = '/' || c = '\\' then [] :: r
    else
      match r with
      | h :: t => (c :: h) :: t
      | [] => [[c]]

/-- JavaScript `p.split(/[\\/]/).pop() ?? 'attachment'` from
`logAttachmentFromPath`. -/
def lastPathSegment (p : String) : String :=
  match (splitOnSlash p.data).getLast? with
  | some l => String.mk l
  | none => "attachment"

/-! ### ANSI handling (`utils.removeAnsi`, `utils.ansiToMarkdown`)

Both source functions start from
`ansiString.split(/(\u001b\[[0-9;]*[mG])/)`, producing an alternating list of
plain-text parts (possibly empty) and escape-sequence parts.  `ansiSplit`
reproduces that split: `.inr` entries are the text parts, `.inl` entries are
the parameter bytes of a matched escape sequence. -/

/-- Scanner mode while matching `\u001b\[[0-9;]*[mG]`: scanning plain text,
having just seen `ESC`, or inside the parameter bytes after `ESC [` (kept
reversed). -/
inductive AnsiMode where
  | plain
  | escStart
  | escParams (ps : List Char)
deriving DecidableEq, Repr

/-- Mirrors `split(/(\u001b\[[0-9;]*[mG])/)` as a one-pass scanner.  `acc` is
the current text part, reversed.  A completed escape emits the pending text
part (`.inr`) followed by the escape's parameter bytes (`.inl`); a failed
candidate escape is flushed back into the text part, exactly as the regex
would leave it unmatched. -/
def ansiSplitGo (acc : List Char) : AnsiMode → List Char → List (Sum String String)
  | AnsiMode.plain, [] => [Sum.inr (String.mk acc.reverse)]
  | AnsiMode.escStart, [] => [Sum.inr (String.mk ('\x1b' :: acc).reverse)]
  | AnsiMode.escParams ps, [] => [Sum.inr (String.mk (ps ++ ['[', '\x1b'] ++ acc).reverse)]
  | AnsiMode.plain, c :: rest =>
    if c = '\x1b' then ansiSplitGo acc AnsiMode.escStart rest
    else ansiSplitGo (c :: acc) AnsiMode.plain rest
  | AnsiMode.escStart, c :: rest =>
    if c = '[' then ansiSplitGo acc (AnsiMode.escParams []) rest
    else if c = '\x1b' then ansiSplitGo ('\x1b' :: acc) AnsiMode.escStart rest
    else ansiSplitGo (c :: '\x1b' :: acc) AnsiMode.plain rest
  | AnsiMode.escParams ps, c :: rest =>
    if c = 'm' ∨ c = 'G' then
      Sum.inr (String.mk acc.reverse) :: Sum.inl (String.mk ps.reverse) ::
        ansiSplitGo [] AnsiMode.plain rest
    else if c.isDigit ∨ c = ';' then ansiSplitGo acc (AnsiMode.escParams (c :: ps)) rest
    else
      let acc' := ps ++ ['[', '\x1b'] ++ acc
      if c = '\x1b' then ansiSplitGo acc' AnsiMode.escStart rest
      else ansiSplitGo (c :: acc') AnsiMode.plain rest

/-- The alternating text/escape parts of the shared ANSI-splitting regex. -/
def ansiSplit (s : String) : List (Sum String String) := ansiSplitGo [] AnsiMode.plain s.data

/-- Translation of `utils.removeAnsi`: keep every part that is not a matched
escape sequence. -/
def removeAnsi (s : String) : String :=
  String.join ((ansiSplit s).filterMap fun t =>
    match t with
    | Sum.inr txt => some txt
    | Sum.inl _ => none)

/-- Style state of `utils.ansiToMarkdown` (`currentStyle`). -/
structure AnsiStyle where
  italic : Bool := false
  code : Bool := false
deriving DecidableEq, Repr

/-- The `ansiCodes` table of `utils.ansiToMarkdown`, applied to one
semicolon-separated code. -/
def applyAnsiCode (st : AnsiStyle) (c : String) : AnsiStyle :=
  if c = "31" ∨ c = "32" then { st with italic := true }
  else if c = "39" then { st with italic := false }
  else if c = "2" then { st with code := true }
  else if c = "22" then { st with code := false }
  else st

/-- Split a parameter string on `;`; mirrors `code.split(';')`. -/
def splitSemis : List Char → List String
  | [] => [""]
  | c :: rest =>
    let r := splitSemis rest
    if c = ';' then "" :: r
    else
      match r with
      | h :: t => (String.mk (c :: h.data)) :: t
      | [] => [String.mk [c]]

/-- Main loop of `utils.ansiToMarkdown` over the split parts. -/
def ansiToMarkdownGo (st : AnsiStyle) : List (Sum String String) → String
  | [] => ""
  | Sum.inl params :: rest =>
    let st' := (splitSemis params.data).foldl applyAnsiCode st
    ansiToMarkdownGo st' rest
  | Sum.inr txt :: rest =>
    let fp := mdNewlines txt
    let fp :=
      if st.italic then
        if endsWithSpace fp then "*" ++ strTrim fp ++ "* " else "*" ++ fp ++ "*"
      else fp
    fp ++ ansiToMarkdownGo st rest

/-- Translation of `utils.ansiToMarkdown`. -/
def ansiToMarkdown (s : String) : String := ansiToMarkdownGo {} (ansiSplit s)

/-! ### Test-type classification and status map -/

/-- Translation of `utils.determineTestType`. -/
def determineTestType (parentTitlePath : String) : TestType :=
  let lower := strToLower parentTitlePath
  if strContains lower "beforeall" || strContains lower "before all" ||
      strContains lower "beforeeach" || strContains lower "before each" ||
      strContains lower "setup" then
    TestType.BEFORE
  else if strContains lower "afterall" || strContains lower "after all" ||
      strContains lower "aftereach" || strContains lower "after each" ||
      strContains lower "teardown" then
    TestType.AFTER
  else TestType.TEST

/-- Translation of `utils.testStatusMap` (a `Record<string, FinishTest.Status>`,
modelled as an association list with own-property lookup). -/
def testStatusMap : List (String × TestStatus) :=
  [("passed", TestStatus.PASSED),
   ("failed", TestStatus.FAILED),
   ("skipped", TestStatus.SKIPPED),
   ("pending", TestStatus.SKIPPED)]

/-! ### Console-log formatting (`utils.formatConsoleLog`) -/

/-- Stream kind of a Vitest `UserConsoleLog` (`log.type ?? 'stdout'`). -/
inductive StreamKind where
  | stdout
  | stderr
deriving DecidableEq, Repr

/-- A Vitest `UserConsoleLog` as the reporter consumes it. -/
structure UserConsoleLog where
  taskId : Option String
  content : String
  type : StreamKind
deriving DecidableEq, Repr

/-- Result triple of `utils.formatConsoleLog`. -/
structure FormattedLog where
  message : String
  format : LogFormat
  level : LogLevel
deriving DecidableEq, Repr

/-- Translation of `utils.formatConsoleLog`. -/
def formatConsoleLog (l : UserConsoleLog) : FormattedLog :=
  let text := l.content
  let clean := removeAnsi text
  let level :=
    match l.type with
    | StreamKind.stderr => LogLevel.ERROR
    | StreamKind.stdout => LogLevel.INFO
  let hasMarkdown := strContains clean "```" || strContains clean "*"
  { message := if hasMarkdown then clean else text,
    format := if hasMarkdown then LogFormat.MARKDOWN else LogFormat.PLAIN_TEXT,
    level := level }

/-! ### Coverage table formatter (`utils.formatCoverageMarkdownTable`)

The source duck-types its `unknown` input by probing for operations.  As the
spec's design notes prescribe, the dispatch is modelled as a tagged union:
`covMap` is an istanbul `CoverageMap` (has `files()` and `fileCoverageFor()`;
the outer `Option` on `getCoverageSummary` is the presence of that method and
the inner `Option SummaryData` the extracted `s.data ?? s.toJSON() ?? s`
value, `none` when that chain yields nothing usable), `summaryOnly` is a flat
summary whose four totals objects are all present (truthy), and `raw` is
everything else, carrying the result of `JSON.stringify(coverage, null, 2)`
(`none` when serialization throws). -/

/-- One `{total, covered, skipped, pct}` object as found in coverage data;
every field may be absent.  JavaScript numbers are modelled as `Nat` counts
and a rational percentage. -/
structure TotalsInput where
  total : Option Nat
  covered : Option Nat
  skipped : Option Nat
  pct : Option Rat
deriving DecidableEq, Repr

/-- The `TotalsLike` shape after `normalizeTotals` defaulted every field. -/
structure Totals where
  total : Nat
  covered : Nat
  skipped : Nat
  pct : Rat
deriving DecidableEq, Repr

/-- The `{lines, statements, branches, functions}` record extracted from a
coverage summary; each metric may be absent. -/
structure SummaryData where
  lines : Option TotalsInput
  statements : Option TotalsInput
  branches : Option TotalsInput
  functions : Option TotalsInput
deriving DecidableEq, Repr

/-- The coverage input, as dispatched by the source's capability probes. -/
inductive Coverage where
  | covMap (files : List String) (fileCov : String → Option SummaryData)
      (getCoverageSummary : Option (Option SummaryData))
  | summaryOnly (lines statements branches functions : TotalsInput)
  | raw (json : Option String)

/-- Translation of the source's local `normalizeTotals`. -/
def normalizeTotals : Option TotalsInput → Option Totals
  | none => none
  | some t =>
    some { total := t.total.getD 0, covered := t.covered.getD 0,
           skipped := t.skipped.getD 0, pct := t.pct.getD 0 }

/-- JavaScript `pct.toFixed(1)`: round to one decimal digit (computed on the
numerator/denominator so that it reduces in the kernel; ties and negative
values follow floor-of-(10x+1/2), which agrees with `toFixed` on the
non-negative percentages coverage data contains). -/
def toFixed1 (q : Rat) : String :=
  let scaled : Int := Int.fdiv (20 * q.num + (q.den : Int)) (2 * (q.den : Int))
  let sign := if scaled < 0 then "-" else ""
  let n := scaled.natAbs
  sign ++ toString (n / 10) ++ "." ++ toString (n % 10)

/-- Translation of the source's local `formatTotalsCell`. -/
def formatTotalsCell : Option Totals → String
  | none => "n/a"
  | some t => toFixed1 t.pct ++ "% (" ++ toString t.covered ++ "/" ++ toString t.total ++ ")"

/-- The four metric cells of one table row, in source order. -/
def totalsCells (d : Option SummaryData) : String :=
  formatTotalsCell (normalizeTotals (d.bind SummaryData.lines)) ++ " | " ++
  formatTotalsCell (normalizeTotals (d.bind SummaryData.statements)) ++ " | " ++
  formatTotalsCell (normalizeTotals (d.bind SummaryData.branches)) ++ " | " ++
  formatTotalsCell (normalizeTotals (d.bind SummaryData.functions))

/-- The fixed table header the source pushes into `rows` first. -/
def headerRows : List String :=
  ["| File | Lines | Statements | Branches | Functions |",
   "| ---- | ----: | ---------: | -------: | --------: |"]

/-- JavaScript `s.startsWith(pat)`. -/
def strStartsWith (s pat : String) : Bool := listLeadEq pat.data s.data

/-- Character-wise lexicographic order, as JavaScript's default
`Array.prototype.sort` compares strings. -/
def charListLe : List Char → List Char → Bool
  | [], _ => true
  | _ :: _, [] => false
  | a :: as, b :: bs => if a < b then true else if b < a then false else charListLe as bs

/-- Insert into a sorted list (helper for `sortStrings`). -/
def insertSorted (x : String) : List String → List String
  | [] => [x]
  | y :: ys => if charListLe x.data y.data then x :: y :: ys else y :: insertSorted x ys

/-- JavaScript `files.sort()` (default string comparator). -/
def sortStrings (l : List String) : List String := l.foldr insertSorted []

/-- The `file path rendered relative to the working directory when that is
unambiguous, else kept absolute` computation; `rel` is the ambient
`path.relative(process.cwd(), ·)`. -/
def relDisplayPath (rel : String → String) (file : String) : String :=
  let r := rel file
  if r ≠ "" ∧ strStartsWith r ".." = false then r else file

/-- Translation of `utils.formatCoverageMarkdownTable`.  The `try` around the
recognized shapes cannot fail here because the probed operations are total in
this model; the unrecognized-input fallbacks live in the `raw` variant. -/
def formatCoverageMarkdownTable (rel : String → String) (coverage : Coverage) : String :=
  match coverage with
  | Coverage.covMap files fileCov getCoverageSummary =>
    let aggRows : List String :=
      match getCoverageSummary with
      | some summary => ["**All files** | " ++ totalsCells summary]
      | none => []
    let fileRows : List String :=
      (sortStrings files).map fun file =>
        "`" ++ relDisplayPath rel file ++ "` | " ++ totalsCells (fileCov file)
    String.intercalate "\n" (headerRows ++ aggRows ++ fileRows)
  | Coverage.summaryOnly lines statements branches functions =>
    let row :=
      "**All files** | " ++
      formatTotalsCell (normalizeTotals (some lines)) ++ " | " ++
      formatTotalsCell (normalizeTotals (some statements)) ++ " | " ++
      formatTotalsCell (normalizeTotals (some branches)) ++ " | " ++
      formatTotalsCell (normalizeTotals (some functions))
    String.intercalate "\n" (headerRows ++ [row])
  | Coverage.raw json =>
    match json with
    | some j =>
      String.intercalate "\n"
        ["| Metric | Value |",
         "| ------ | ----- |",
         "| Coverage JSON | ```json",
         escapePipes j,
         "``` |"]
    | none => "| Metric | Value |\n| ------ | ----- |\n| Coverage | (unserializable) |"

/-! ### Reporter data model (`OrangebeardVitestReporter`) -/

/-- A call made against the Orangebeard client, recorded as a trace event.
Identifier payloads are the values the reporter passes; `Option Nat` fields
can be `undefined` in the source. -/
inductive ClientCall where
  | startTestRun (testSetName description : String)
  | finishTestRun (runId : Option Nat)
  | startSuite (runId : Option Nat) (parentSuiteUUID : Option Nat) (suiteNames : List String)
  | startTest (runId : Option Nat) (suiteUUID : Nat) (testName : String)
      (testType : TestType) (description : String)
  | finishTest (testUUID : Nat) (runId : Option Nat) (status : TestStatus)
  | log (format : LogFormat) (level : LogLevel) (message : String)
      (runId : Option Nat) (testUUID : Nat)
  | sendAttachment (fileName : String) (contentType : String)
      (runId : Option Nat) (testUUID : Nat) (logUUID : Nat)
deriving DecidableEq, Repr

/-- An entry of `this.promises`: one scheduled `logAttachmentFromPath` call.
The eventual bytes come from the ambient file system at resolution time. -/
structure PendingUpload where
  path : String
  contentType : String
  testUUID : Nat
  logUUID : Nat
deriving DecidableEq, Repr

/-- The configuration the reporter reads once from the client
(`this.config`). -/
structure OrangebeardConfig where
  testset : String
  description : Option String
  attributes : List (String × String)
deriving DecidableEq, Repr

/-- The mutable fields of `OrangebeardVitestReporter`.  `nextUuid` is the
fresh-identifier source standing for the client's local UUID generation. -/
structure Reporter where
  config : OrangebeardConfig
  testRunId : Option Nat
  suites : List (String × Nat)
  tests : List (String × Nat)
  promises : List PendingUpload
  bufferedLogs : List (String × List UserConsoleLog)
  coverage : Option Coverage
  nextUuid : Nat

/-- The freshly constructed reporter. -/
def Reporter.init (config : OrangebeardConfig) : Reporter :=
  { config := config, testRunId := none, suites := [], tests := [],
    promises := [], bufferedLogs := [], coverage := none, nextUuid := 0 }

/-- Association-list lookup keyed by strings, standing for `Map.get`. -/
def lookupA {α : Type} (m : List (String × α)) (k : String) : Option α := List.lookup k m

/-- Removal standing for `Map.delete`. -/
def eraseA {α : Type} (m : List (String × α)) (k : String) : List (String × α) :=
  m.filter fun p => p.1 ≠ k

/-- Insert-or-overwrite standing for `Map.set`. -/
def insertA {α : Type} (m : List (String × α)) (k : String) (v : α) : List (String × α) :=
  (k, v) :: eraseA m k

/-! ### Vitest-side inputs -/

/-- The fields of a `TestModule` that `buildSuitePath` reads. -/
structure ModuleInfo where
  moduleId : Option String
  projectName : Option String
  name : Option String
deriving DecidableEq, Repr

/-- A test location (`test.location`); the source also accepts `fileName` as
the file key.  Presence of the record stands for
`location && typeof location.line === 'number'`. -/
structure Location where
  file : Option String
  fileName : Option String
  line : Nat
deriving DecidableEq, Repr

/-- One entry of `result.errors`. -/
structure ErrorInfo where
  message : Option String
  name : Option String
  stack : Option String
deriving DecidableEq, Repr

/-- The parts of `test.result()` the reporter reads. -/
structure TestResult where
  state : String
  errors : List ErrorInfo
deriving DecidableEq, Repr

/-- A Vitest `TestCase` as consumed by the reporter.  `suiteChain` is the
sequence of `name` fields met while walking `test.suite ?? test.parent`
upwards (innermost scope first); the walk stops at the first falsy name. -/
structure TestCase where
  id : String
  name : String
  module : Option ModuleInfo
  suiteChain : List String
  location : Option Location
  result : Option TestResult
deriving DecidableEq, Repr

/-- A recorded Vitest artifact as probed by `onTestCaseArtifactRecord`:
`path` is `artifact.path` when it is a string, `fileName` is
`artifact.file?.name`, `contentType` is `artifact.contentType`. -/
structure Artifact where
  path : Option String
  fileName : Option String
  contentType : Option String
deriving DecidableEq, Repr

/-! ### Event handlers -/

/-- Translation of `onTestRunStart`. -/
def onTestRunStart (s : Reporter) : Reporter × List ClientCall :=
  match s.testRunId with
  | some _ => (s, [])
  | none =>
    let runId := s.nextUuid
    ({ s with testRunId := some runId, nextUuid := s.nextUuid + 1 },
     [ClientCall.startTestRun s.config.testset (s.config.description.getD "Vitest test run")])

/-- Translation of `buildSuitePath`; `rel` is `path.relative(process.cwd(), ·)`. -/
def buildSuitePath (rel : String → String) (t : TestCase) : List String :=
  let moduleSegs : List String :=
    match t.module with
    | none => []
    | some m =>
      let projectName : Option String :=
        match m.moduleId with
        | some mid =>
          let r := rel mid
          some (if r ≠ "" ∧ strStartsWith r ".." = false then r else mid)
        | none =>
          match m.projectName with
          | some p => some p
          | none => m.name
      [projectName.getD "root"]
  let chain := t.suiteChain.takeWhile fun n => n ≠ ""
  (moduleSegs ++ chain).filter fun seg => seg ≠ "" ∧ strTrim seg ≠ ""

/-- Result of the suite-resolution loop inside `getOrStartSuiteForTest`. -/
structure SuiteLoopResult where
  suites : List (String × Nat)
  nextUuid : Nat
  trace : List ClientCall
  parent : Option Nat
deriving Repr

/-- The `for (const segment of path)` loop of `getOrStartSuiteForTest`:
memoized lookup per joined prefix key, creating a suite under the previously
resolved parent on a miss.  The modelled client returns one fresh identifier
per requested name, so the `newSuites.length > 0` guard always holds. -/
def suiteLoop (runId : Option Nat) (keyParts : List String) (suites : List (String × Nat))
    (next : Nat) (parent : Option Nat) : List String → SuiteLoopResult
  | [] => { suites := suites, nextUuid := next, trace := [], parent := parent }
  | seg :: rest =>
    let keyParts' := keyParts ++ [seg]
    let key := String.intercalate "|" keyParts'
    match lookupA suites key with
    | some existing => suiteLoop runId keyParts' suites next (some existing) rest
    | none =>
      let u := next
      let r := suiteLoop runId keyParts' (insertA suites key u) (next + 1) (some u) rest
      { r with trace := ClientCall.startSuite runId parent [seg] :: r.trace }

/-- Translation of `getOrStartSuiteForTest`.  The `Except` component carries
the `throw new Error(...)` on an unresolved parent; state mutations and calls
made before the throw survive, as they do in the source. -/
def getOrStartSuiteForTest (rel : String → String) (s : Reporter) (t : TestCase) :
    Reporter × List ClientCall × Except String Nat :=
  let path := buildSuitePath rel t
  let r := suiteLoop s.testRunId [] s.suites s.nextUuid none path
  let s' := { s with suites := r.suites, nextUuid := r.nextUuid }
  match r.parent with
  | some u => (s', r.trace, Except.ok u)
  | none => (s', r.trace, Except.error "Failed to create or resolve suite for test.")

/-- Translation of `getTestDescription`. -/
def getTestDescription (t : TestCase) : String :=
  match t.location with
  | none => ""
  | some loc =>
    let file :=
      match loc.file with
      | some f => some f
      | none => loc.fileName
    match file with
    | some f => if f = "" then "" else f ++ ":" ++ toString loc.line
    | none => ""

/-- The log call forwarding one console log to a known test. -/
def logCallOf (runId : Option Nat) (testUUID : Nat) (l : UserConsoleLog) : ClientCall :=
  let f := formatConsoleLog l
  ClientCall.log f.format f.level f.message runId testUUID

/-- Translation of `flushBufferedLogs`. -/
def flushBufferedLogs (s : Reporter) (taskId : String) (testUUID : Nat) :
    Reporter × List ClientCall :=
  match lookupA s.bufferedLogs taskId with
  | none => (s, [])
  | some buffered =>
    if buffered.isEmpty then (s, [])
    else
      ({ s with bufferedLogs := eraseA s.bufferedLogs taskId },
       buffered.map (logCallOf s.testRunId testUUID))

/-- Translation of `ensureTestStarted`.  On a miss it resolves the suite
chain, starts the test, records the identifier and flushes buffered logs; a
suite-resolution throw propagates with the calls made so far. -/
def ensureTestStarted (rel : String → String) (s : Reporter) (t : TestCase) :
    Reporter × List ClientCall × Except String Nat :=
  match lookupA s.tests t.id with
  | some existing => (s, [], Except.ok existing)
  | none =>
    let (s1, calls, r) := getOrStartSuiteForTest rel s t
    match r with
    | Except.error e => (s1, calls, Except.error e)
    | Except.ok suiteUUID =>
      let testType := determineTestType t.name
      let description := getTestDescription t
      let testUUID := s1.nextUuid
      let s2 := { s1 with nextUuid := s1.nextUuid + 1, tests := insertA s1.tests t.id testUUID }
      let (s3, flushCalls) := flushBufferedLogs s2 t.id testUUID
      (s3,
       calls ++ [ClientCall.startTest s.testRunId suiteUUID t.name testType description] ++ flushCalls,
       Except.ok testUUID)

/-- Translation of `onTestCaseReady`. -/
def onTestCaseReady (rel : String → String) (s : Reporter) (t : TestCase) :
    Reporter × List ClientCall × Except String Unit :=
  let (s', calls, r) := ensureTestStarted rel s t
  (s', calls, r.map fun _ => ())

/-- The `location.file ?? location.fileName` chain used both by the snippet
emission and by `getTestDescription`. -/
def locFile (loc : Location) : Option String :=
  match loc.file with
  | some f => some f
  | none => loc.fileName

/-- The stack-trace log of one error item, emitted only when a stack is
present. -/
def stackLogs (runId : Option Nat) (testUUID : Nat) (e : ErrorInfo) : List ClientCall :=
  match e.stack with
  | some st =>
    [ClientCall.log LogFormat.MARKDOWN LogLevel.ERROR
       ("```text\n" ++ removeAnsi st ++ "\n```") runId testUUID]
  | none => []

/-- The best-effort code-snippet log of one error item: emitted only when the
test has a location with a (truthy) file and the ambient `getCodeSnippet`
call succeeded (`snippet = some _`); its throw is caught and yields nothing. -/
def snippetLogs (runId : Option Nat) (testUUID : Nat) (loc : Option Location)
    (snippet : Option String) : List ClientCall :=
  match loc with
  | none => []
  | some loc' =>
    match locFile loc' with
    | none => []
    | some f =>
      if f = "" then []
      else
        match snippet with
        | some sn => [ClientCall.log LogFormat.MARKDOWN LogLevel.INFO sn runId testUUID]
        | none => []

/-- The per-error log emission loop of `onTestCaseResult`.  `snippet` is the
ambient outcome of `utils.getCodeSnippet` at the test's location (`none`
when it threw; that throw is caught and the snippet log omitted). -/
def errorLogs (runId : Option Nat) (testUUID : Nat) (loc : Option Location)
    (snippet : Option String) (errors : List ErrorInfo) : List ClientCall :=
  errors.flatMap fun e =>
    let message := ansiToMarkdown (removeAnsi ((e.message.getD (e.name.getD "Test failed"))))
    [ClientCall.log LogFormat.MARKDOWN LogLevel.ERROR message runId testUUID] ++
    stackLogs runId testUUID e ++
    snippetLogs runId testUUID loc snippet

/-- Translation of `onTestCaseResult`. -/
def onTestCaseResult (rel : String → String) (snippet : Option String) (s : Reporter)
    (t : TestCase) : Reporter × List ClientCall × Except String Unit :=
  let (s1, calls1, r) := ensureTestStarted rel s t
  match r with
  | Except.error e => (s1, calls1, Except.error e)
  | Except.ok testUUID =>
    let result := t.result
    let status : Option TestStatus :=
      match result with
      | none => none
      | some res => if res.state = "" then none else lookupA testStatusMap res.state
    let errCalls : List ClientCall :=
      match result with
      | none => []
      | some res =>
        if res.errors.isEmpty then []
        else errorLogs s1.testRunId testUUID t.location snippet res.errors
    let finishCalls : List ClientCall :=
      match status with
      | some st => [ClientCall.finishTest testUUID s1.testRunId st]
      | none => []
    ({ s1 with tests := eraseA s1.tests t.id }, calls1 ++ errCalls ++ finishCalls, Except.ok ())

/-- Translation of `onUserConsoleLog` (a missing or empty `taskId` is dropped
with only a local `console.warn`). -/
def onUserConsoleLog (s : Reporter) (l : UserConsoleLog) : Reporter × List ClientCall :=
  match l.taskId with
  | none => (s, [])
  | some taskId =>
    if taskId = "" then (s, [])
    else
      match lookupA s.tests taskId with
      | none =>
        let existing := (lookupA s.bufferedLogs taskId).getD []
        ({ s with bufferedLogs := insertA s.bufferedLogs taskId (existing ++ [l]) }, [])
      | some testUUID => (s, [logCallOf s.testRunId testUUID l])

/-- Translation of `onTestCaseArtifactRecord`.  The descriptive log call
returns `logUUID`; the upload is scheduled only under the source's
`if (path)` truthiness guard, i.e. when the artifact exposes a string `path`
that is not the (falsy) empty string.  The `name` fallback chain uses nullish
coalescing, so an empty-string `path` still names the log. -/
def onTestCaseArtifactRecord (s : Reporter) (t : TestCase) (a : Artifact) :
    Reporter × List ClientCall :=
  match lookupA s.tests t.id with
  | none => (s, [])
  | some testUUID =>
    let name :=
      match a.fileName with
      | some n => n
      | none =>
        match a.path with
        | some p => p
        | none => "artifact"
    let contentType := a.contentType.getD "application/octet-stream"
    let logUUID := s.nextUuid
    let s1 := { s with nextUuid := s.nextUuid + 1 }
    let logCall := ClientCall.log LogFormat.MARKDOWN LogLevel.INFO
      ("Attachment: " ++ name) s.testRunId testUUID
    match a.path with
    | some p =>
      if p = "" then (s1, [logCall])
      else
        ({ s1 with promises := s1.promises ++
            [{ path := p, contentType := contentType, testUUID := testUUID, logUUID := logUUID }] },
         [logCall])
    | none => (s1, [logCall])

/-- Translation of `onCoverage` (stores the snapshot verbatim, overwriting). -/
def onCoverage (s : Reporter) (coverage : Coverage) : Reporter :=
  { s with coverage := some coverage }

/-- Translation of `getOrStartCoverageSuite`. -/
def getOrStartCoverageSuite (s : Reporter) : Reporter × List ClientCall × Nat :=
  let key := "__orangebeard_coverage__"
  match lookupA s.suites key with
  | some existing => (s, [], existing)
  | none =>
    let uuid := s.nextUuid
    ({ s with suites := insertA s.suites key uuid, nextUuid := s.nextUuid + 1 },
     [ClientCall.startSuite s.testRunId none ["Coverage"]],
     uuid)

/-- The `try` body of `reportCoverageSummary`.  With the modelled client and
the total coverage formatter this body cannot fail; the `Except` layer keeps
the source's try/catch structure visible. -/
def reportCoverageSummaryTry (rel : String → String) (s : Reporter) (cov : Coverage) :
    Except String (Reporter × List ClientCall) :=
  let (s1, suiteCalls, suiteUUID) := getOrStartCoverageSuite s
  let testUUID := s1.nextUuid
  let s2 := { s1 with nextUuid := s1.nextUuid + 1 }
  let markdownTable := formatCoverageMarkdownTable rel cov
  Except.ok (s2,
    suiteCalls ++
    [ClientCall.startTest s.testRunId suiteUUID "Coverage report" TestType.AFTER
       "Aggregated coverage summary reported by Vitest.",
     ClientCall.log LogFormat.MARKDOWN LogLevel.INFO markdownTable s.testRunId testUUID,
     ClientCall.finishTest testUUID s.testRunId TestStatus.PASSED])

/-- Translation of `reportCoverageSummary`: no-op without a snapshot; the
catch branch reports only a local diagnostic; the `finally` clears the
snapshot on both branches. -/
def reportCoverageSummary (rel : String → String) (s : Reporter) : Reporter × List ClientCall :=
  match s.coverage with
  | none => (s, [])
  | some cov =>
    match reportCoverageSummaryTry rel s cov with
    | Except.ok (s', calls) => ({ s' with coverage := none }, calls)
    | Except.error _ => ({ s with coverage := none }, [])

/-- Resolution of one pending upload (`logAttachmentFromPath`): `fs` is the
ambient outcome of `getBytes` for a path; on success the attachment is sent,
on failure the rethrown error rejects the tracked promise. -/
def resolveUpload (runId : Option Nat) (fs : String → Except String (List Nat))
    (p : PendingUpload) : Except String ClientCall :=
  match fs p.path with
  | Except.ok _ =>
    Except.ok (ClientCall.sendAttachment (lastPathSegment p.path) p.contentType
      runId p.testUUID p.logUUID)
  | Except.error e => Except.error e

/-- The `await Promise.all(this.promises)` step: succeeds with every upload's
attachment call when all resolve, rejects with the first failure otherwise. -/
def awaitAllUploads (runId : Option Nat) (fs : String → Except String (List Nat)) :
    List PendingUpload → Except String (List ClientCall)
  | [] => Except.ok []
  | p :: rest =>
    match resolveUpload runId fs p with
    | Except.error e => Except.error e
    | Except.ok c =>
      match awaitAllUploads runId fs rest with
      | Except.error e => Except.error e
      | Except.ok cs => Except.ok (c :: cs)

/-- Translation of `onTestRunEnd`.  A rejected upload promise makes the
`await Promise.all` throw, so nothing after it (coverage report, run close)
runs and the rejection propagates; sends by sibling uploads that succeeded
are linearized into the trace only in the all-success case. -/
def onTestRunEnd (rel : String → String) (fs : String → Except String (List Nat))
    (s : Reporter) : Reporter × List ClientCall × Except String Unit :=
  match awaitAllUploads s.testRunId fs s.promises with
  | Except.error e => (s, [], Except.error e)
  | Except.ok attachmentCalls =>
    let (s1, covCalls) := reportCoverageSummary rel s
    (s1, attachmentCalls ++ covCalls ++ [ClientCall.finishTestRun s.testRunId], Except.ok ())

/-- Translation of `printsToStdio`. -/
def printsToStdio : Bool := false

/-! ### Drivers and trace predicates used by the verification -/

/-- Feed a sequence of console-log events to the reporter, concatenating the
emitted calls. -/
def processLogs (s : Reporter) : List UserConsoleLog → Reporter × List ClientCall
  | [] => (s, [])
  | l :: rest =>
    let r1 := onUserConsoleLog s l
    let r2 := processLogs r1.1 rest
    (r2.1, r1.2 ++ r2.2)

/-- Invoke `onTestRunStart` a number of times in a row. -/
def iterateRunStart (s : Reporter) : Nat → Reporter × List ClientCall
  | 0 => (s, [])
  | n + 1 =>
    let r1 := onTestRunStart s
    let r2 := iterateRunStart r1.1 n
    (r2.1, r1.2 ++ r2.2)

/-- Whether a trace event is a remote run-creation call. -/
def isStartTestRunCall : ClientCall → Bool
  | ClientCall.startTestRun _ _ => true
  | _ => false

/-- Whether a trace event is the run-close call. -/
def isFinishTestRunCall : ClientCall → Bool
  | ClientCall.finishTestRun _ => true
  | _ => false

/-- Whether a trace event is a remote suite-creation call. -/
def isStartSuiteCall : ClientCall → Bool
  | ClientCall.startSuite _ _ _ => true
  | _ => false

/-- Whether a trace event is a remote test-creation call. -/
def isStartTestCall : ClientCall → Bool
  | ClientCall.startTest _ _ _ _ _ => true
  | _ => false

/-- Whether a trace event is a test-finish call. -/
def isFinishTestCall : ClientCall → Bool
  | ClientCall.finishTest _ _ _ => true
  | _ => false

/-- Whether a trace event is a log call. -/
def isLogCall : ClientCall → Bool
  | ClientCall.log _ _ _ _ _ => true
  | _ => false

/-- Whether a trace event is an attachment send. -/
def isSendAttachmentCall : ClientCall → Bool
  | ClientCall.sendAttachment _ _ _ _ _ => true
  | _ => false

/-- The joined memoization keys of every non-empty prefix of a suite path,
continuing from already accumulated `keyParts`. -/
def prefixKeys (keyParts : List String) : List String → List String
  | [] => []
  | seg :: rest =>
    let keyParts' := keyParts ++ [seg]
    String.intercalate "|" keyParts' :: prefixKeys keyParts' rest

/-- The suite-creation calls a resolution run issues when no prefix of the
path is memoized yet: one call per path prefix, each created under the
identifier the previous prefix just received. -/
def freshSuiteTrace (runId : Option Nat) (parent : Option Nat) (next : Nat) :
    List String → List ClientCall
  | [] => []
  | seg :: rest =>
    ClientCall.startSuite runId parent [seg] :: freshSuiteTrace runId (some next) (next + 1) rest

/-- Every `|` character in the string is immediately preceded by a
backslash (table-delimiter escaping, checked character-wise). -/
def pipesEscaped : List Char → Bool
  | [] => true
  | '|' :: _ => false
  | '\\' :: '|' :: rest => pipesEscaped rest
  | _ :: rest => pipesEscaped rest

/-! ## Lemmas about the map model -/

theorem lookupA_cons {α : Type} (p : String × α) (rest : List (String × α)) (k : String) :
    lookupA (p :: rest) k = if k = p.1 then some p.2 else lookupA rest k := by
  cases p with
  | mk a b =>
    simp only [lookupA, List.lookup]
    by_cases h : k = a
    · simp [h]
    · have hb : (k == a) = false := by simp [h]
      simp [hb, h]

theorem eraseA_cons {α : Type} (p : String × α) (rest : List (String × α)) (k : String) :
    eraseA (p :: rest) k = if p.1 = k then eraseA rest k else p :: eraseA rest k := by
  by_cases hp : p.1 = k
  · simp [eraseA, List.filter_cons, hp]
  · simp [eraseA, List.filter_cons, hp]

theorem lookupA_eraseA_self {α : Type} (m : List (String × α)) (k : String) :
    lookupA (eraseA m k) k = none := by
  induction m with
  | nil => rfl
  | cons p rest ih =>
    rw [eraseA_cons]
    by_cases hp : p.1 = k
    · rw [if_pos hp]; exact ih
    · rw [if_neg hp, lookupA_cons, if_neg (fun h => hp h.symm)]
      exact ih

theorem lookupA_eraseA_ne {α : Type} (m : List (String × α)) (k k' : String) (h : k' ≠ k) :
    lookupA (eraseA m k) k' = lookupA m k' := by
  induction m with
  | nil => rfl
  | cons p rest ih =>
    rw [eraseA_cons]
    by_cases hp : p.1 = k
    · rw [if_pos hp, ih, lookupA_cons, if_neg (by rw [hp]; exact h)]
    · rw [if_neg hp, lookupA_cons, lookupA_cons, ih]

theorem lookupA_insertA_self {α : Type} (m : List (String × α)) (k : String) (v : α) :
    lookupA (insertA m k v) k = some v := by
  simp [insertA, lookupA_cons]

theorem lookupA_insertA_ne {α : Type} (m : List (String × α)) (k k' : String) (v : α)
    (h : k' ≠ k) : lookupA (insertA m k v) k' = lookupA m k' := by
  simp only [insertA]
  rw [lookupA_cons, if_neg h]
  exact lookupA_eraseA_ne m k k' h

/-! ## Claim C5: run-start idempotence -/

theorem iterateRunStart_noop (n : Nat) :
    ∀ (s : Reporter) (rid : Nat), s.testRunId = some rid → iterateRunStart s n = (s, []) := by
  induction n with
  | zero => intro s rid _; rfl
  | succ n ih =>
    intro s rid h
    simp only [iterateRunStart, onTestRunStart, h]
    exact ih s rid h

/-- C5: the run-started operation is idempotent.  Invoking it while a run is
already open is a strict no-op (same state, no client call); from a fresh
state, any positive number of run-start invocations issues exactly one
`startTestRun` call and the recorded run identifier ends up at the value the
single creation recorded. -/
theorem runStart_idempotent (s s0 : Reporter) (rid n : Nat)
    (hopen : s.testRunId = some rid) (hfresh : s0.testRunId = none) :
    onTestRunStart s = (s, []) ∧
    (iterateRunStart s0 (n + 1)).2.countP isStartTestRunCall = 1 ∧
    (iterateRunStart s0 (n + 1)).1 = (onTestRunStart s0).1 ∧
    (iterateRunStart s0 (n + 1)).1.testRunId = some s0.nextUuid := by
  have hstate : (onTestRunStart s0).1.testRunId = some s0.nextUuid := by
    simp [onTestRunStart, hfresh]
  have htrace : (onTestRunStart s0).2 =
      [ClientCall.startTestRun s0.config.testset (s0.config.description.getD "Vitest test run")] := by
    simp [onTestRunStart, hfresh]
  have hiter : iterateRunStart s0 (n + 1) = ((onTestRunStart s0).1, (onTestRunStart s0).2) := by
    simp only [iterateRunStart]
    rw [iterateRunStart_noop n (onTestRunStart s0).1 s0.nextUuid hstate]
    simp
  refine ⟨by simp [onTestRunStart, hopen], ?_, ?_, ?_⟩
  · rw [hiter, htrace]; simp [isStartTestRunCall]
  · rw [hiter]
  · rw [hiter]; exact hstate

/-- Witness for `runStart_idempotent` at a concrete reporter state. -/
theorem runStart_idempotent_witness :
    (let cfg : OrangebeardConfig := { testset := "set", description := none, attributes := [] }
     let s := { Reporter.init cfg with testRunId := some 7 }
     let s0 := Reporter.init cfg
     onTestRunStart s = (s, []) ∧
     (iterateRunStart s0 3).2.countP isStartTestRunCall = 1 ∧
     (iterateRunStart s0 3).1 = (onTestRunStart s0).1 ∧
     (iterateRunStart s0 3).1.testRunId = some s0.nextUuid) := by
  exact runStart_idempotent _ _ 7 2 rfl rfl

/-! ## Claim C9: empty suite path raises and makes no remote call -/

/-- C9: when a test's suite path resolves to zero segments, suite resolution
raises (`Except.error`), leaves the state untouched and issues no client
call at all; the error propagates out of `ensureTestStarted` and
`onTestCaseReady` (for a not-yet-known test), so in particular no suite or
test creation call is made for the event. -/
theorem emptyPath_raises (rel : String → String) (s : Reporter) (t : TestCase)
    (hpath : buildSuitePath rel t = []) (hunknown : lookupA s.tests t.id = none) :
    getOrStartSuiteForTest rel s t =
      (s, [], Except.error "Failed to create or resolve suite for test.") ∧
    ensureTestStarted rel s t =
      (s, [], Except.error "Failed to create or resolve suite for test.") ∧
    onTestCaseReady rel s t =
      (s, [], Except.error "Failed to create or resolve suite for test.") := by
  have h1 : getOrStartSuiteForTest rel s t =
      (s, [], Except.error "Failed to create or resolve suite for test.") := by
    simp [getOrStartSuiteForTest, hpath, suiteLoop]
  have h2 : ensureTestStarted rel s t =
      (s, [], Except.error "Failed to create or resolve suite for test.") := by
    simp [ensureTestStarted, hunknown, h1]
  refine ⟨h1, h2, ?_⟩
  simp [onTestCaseReady, h2, Except.map]

/-- Witness for `emptyPath_raises`: a test with no module and no named
scopes has an empty suite path, and the event makes no remote call. -/
theorem emptyPath_raises_witness :
    (let cfg : OrangebeardConfig := { testset := "set", description := none, attributes := [] }
     let s := Reporter.init cfg
     let t : TestCase :=
       { id := "t1", name := "nameless", module := none, suiteChain := [],
         location := none, result := none }
     buildSuitePath id t = [] ∧
     onTestCaseReady id s t =
       (s, [], Except.error "Failed to create or resolve suite for test.")) := by
  refine ⟨rfl, ?_⟩
  exact (emptyPath_raises id
    (Reporter.init { testset := "set", description := none, attributes := [] })
    { id := "t1", name := "nameless", module := none, suiteChain := [],
      location := none, result := none } rfl rfl).2.2

/-! ## Claim C2: total status mapping -/

theorem stackLogs_all_log (runId : Option Nat) (testUUID : Nat) (e : ErrorInfo)
    (c : ClientCall) (h : c ∈ stackLogs runId testUUID e) : isLogCall c = true := by
  unfold stackLogs at h
  split at h
  · simp at h; subst h; rfl
  · simp at h

theorem snippetLogs_all_log (runId : Option Nat) (testUUID : Nat) (loc : Option Location)
    (snippet : Option String) (c : ClientCall) (h : c ∈ snippetLogs runId testUUID loc snippet) :
    isLogCall c = true := by
  unfold snippetLogs at h
  split at h
  · simp at h
  · split at h
    · simp at h
    · split at h
      · simp at h
      · split at h
        · simp at h; subst h; rfl
        · simp at h

theorem errorLogs_all_log (runId : Option Nat) (testUUID : Nat) (loc : Option Location)
    (snippet : Option String) (errors : List ErrorInfo) (c : ClientCall)
    (h : c ∈ errorLogs runId testUUID loc snippet errors) : isLogCall c = true := by
  simp only [errorLogs] at h
  rw [List.mem_flatMap] at h
  obtain ⟨e, -, hc⟩ := h
  simp only [List.mem_append, List.mem_singleton] at hc
  rcases hc with (hc | hc) | hc
  · subst hc; rfl
  · exact stackLogs_all_log _ _ _ _ hc
  · exact snippetLogs_all_log _ _ _ _ _ hc

theorem isLogCall_not_finish (c : ClientCall) (h : isLogCall c = true) :
    isFinishTestCall c = false := by
  cases c <;> simp_all [isLogCall, isFinishTestCall]

/-- C2: the runner terminal state is mapped through `testStatusMap`, a total
function on {passed, failed, skipped, pending} with values
{PASSED, FAILED, SKIPPED, SKIPPED}; every other state maps to nothing.  For a
result event on a known test, a mapped state produces exactly one
`finishTest` call carrying the mapped status, and an unmapped state produces
no `finishTest` call at all (the remote test is left unfinished). -/
theorem testStatus_mapping (rel : String → String) (snippet : Option String)
    (s : Reporter) (t : TestCase) (res : TestResult) (u : Nat)
    (hres : t.result = some res) (hknown : lookupA s.tests t.id = some u) :
    lookupA testStatusMap "passed" = some TestStatus.PASSED ∧
    lookupA testStatusMap "failed" = some TestStatus.FAILED ∧
    lookupA testStatusMap "skipped" = some TestStatus.SKIPPED ∧
    lookupA testStatusMap "pending" = some TestStatus.SKIPPED ∧
    (∀ st : String, st ∉ ["passed", "failed", "skipped", "pending"] →
      lookupA testStatusMap st = none) ∧
    (∀ status : TestStatus, lookupA testStatusMap res.state = some status →
      (onTestCaseResult rel snippet s t).2.1.countP isFinishTestCall = 1 ∧
      ClientCall.finishTest u s.testRunId status ∈ (onTestCaseResult rel snippet s t).2.1) ∧
    (lookupA testStatusMap res.state = none →
      (onTestCaseResult rel snippet s t).2.1.countP isFinishTestCall = 0) := by
  have hens : ensureTestStarted rel s t = (s, [], Except.ok u) := by
    simp [ensureTestStarted, hknown]
  have herr0 : ∀ (errCalls : List ClientCall),
      (∀ c ∈ errCalls, isLogCall c = true) → errCalls.countP isFinishTestCall = 0 := by
    intro errCalls hall
    rw [List.countP_eq_zero]
    intro c hc
    simp [isLogCall_not_finish c (hall c hc)]
  refine ⟨by decide, by decide, by decide, by decide, ?_, ?_, ?_⟩
  · intro st hst
    simp only [List.mem_cons, List.mem_singleton, not_or] at hst
    obtain ⟨h1, h2, h3, h4, -⟩ := hst
    have b1 : (st == "passed") = false := beq_eq_false_iff_ne.mpr h1
    have b2 : (st == "failed") = false := beq_eq_false_iff_ne.mpr h2
    have b3 : (st == "skipped") = false := beq_eq_false_iff_ne.mpr h3
    have b4 : (st == "pending") = false := beq_eq_false_iff_ne.mpr h4
    simp only [testStatusMap, lookupA, List.lookup, b1, b2, b3, b4]
  · intro status hstatus
    have hne : res.state ≠ "" := by
      intro h
      have hn : lookupA testStatusMap "" = none := by decide
      rw [h, hn] at hstatus
      simp at hstatus
    simp only [onTestCaseResult, hens, hres, hne, if_neg hne, hstatus]
    constructor
    · simp only [List.countP_append, List.nil_append]
      have : (if res.errors.isEmpty then ([] : List ClientCall)
          else errorLogs s.testRunId u t.location snippet res.errors).countP isFinishTestCall = 0 := by
        apply herr0
        intro c hc
        split at hc
        · simp at hc
        · exact errorLogs_all_log _ _ _ _ _ c hc
      rw [this]
      simp [isFinishTestCall, List.countP_cons]
    · simp
  · intro hnone
    have hcases : (if res.state = "" then none else lookupA testStatusMap res.state) =
        (none : Option TestStatus) := by
      split
      · rfl
      · exact hnone
    simp only [onTestCaseResult, hens, hres, hcases]
    simp only [List.countP_append, List.nil_append, List.countP_nil]
    have : (if res.errors.isEmpty then ([] : List ClientCall)
        else errorLogs s.testRunId u t.location snippet res.errors).countP isFinishTestCall = 0 := by
      apply herr0
      intro c hc
      split at hc
      · simp at hc
      · exact errorLogs_all_log _ _ _ _ _ c hc
    omega

/-- Witness for `testStatus_mapping`: a known test with state `passed`
(finished as PASSED exactly once) and a second application with the unknown
state `queued` (no finish call). -/
theorem testStatus_mapping_witness :
    (let cfg : OrangebeardConfig := { testset := "set", description := none, attributes := [] }
     let sP := { Reporter.init cfg with tests := [("t1", 5)] }
     let tP : TestCase :=
       { id := "t1", name := "adds", module := none, suiteChain := [], location := none,
         result := some { state := "passed", errors := [] } }
     let sQ := { Reporter.init cfg with tests := [("t2", 6)] }
     let tQ : TestCase :=
       { id := "t2", name := "adds", module := none, suiteChain := [], location := none,
         result := some { state := "queued", errors := [] } }
     ((onTestCaseResult id none sP tP).2.1.countP isFinishTestCall = 1 ∧
      ClientCall.finishTest 5 none TestStatus.PASSED ∈ (onTestCaseResult id none sP tP).2.1) ∧
     (onTestCaseResult id none sQ tQ).2.1.countP isFinishTestCall = 0) := by
  constructor
  · exact (testStatus_mapping id none
      { Reporter.init { testset := "set", description := none, attributes := [] } with
          tests := [("t1", 5)] }
      { id := "t1", name := "adds", module := none, suiteChain := [], location := none,
        result := some { state := "passed", errors := [] } }
      { state := "passed", errors := [] } 5 rfl (by decide)).2.2.2.2.2.1
      TestStatus.PASSED (by decide)
  · exact (testStatus_mapping id none
      { Reporter.init { testset := "set", description := none, attributes := [] } with
          tests := [("t2", 6)] }
      { id := "t2", name := "adds", module := none, suiteChain := [], location := none,
        result := some { state := "queued", errors := [] } }
      { state := "queued", errors := [] } 6 rfl (by decide)).2.2.2.2.2.2 (by decide)

/-! ## Claim C10: a result event removes the test from the active map -/

/-- C10: whenever `onTestCaseResult` returns normally, the test's identifier
is no longer in the active test map — also when no finish call was made — so
a console log for that identifier arriving afterwards is buffered (nothing
is forwarded) and an artifact event for it is ignored outright. -/
theorem result_removes_test (rel : String → String) (snippet : Option String)
    (s : Reporter) (t : TestCase)
    (hok : (onTestCaseResult rel snippet s t).2.2 = Except.ok ()) :
    lookupA (onTestCaseResult rel snippet s t).1.tests t.id = none ∧
    (∀ l : UserConsoleLog, l.taskId = some t.id → t.id ≠ "" →
      (onUserConsoleLog (onTestCaseResult rel snippet s t).1 l).2 = [] ∧
      lookupA (onUserConsoleLog (onTestCaseResult rel snippet s t).1 l).1.bufferedLogs t.id =
        some ((lookupA (onTestCaseResult rel snippet s t).1.bufferedLogs t.id).getD [] ++ [l])) ∧
    (∀ a : Artifact, onTestCaseArtifactRecord (onTestCaseResult rel snippet s t).1 t a =
      ((onTestCaseResult rel snippet s t).1, [])) := by
  rcases hE : ensureTestStarted rel s t with ⟨s1, calls1, r⟩
  cases r with
  | error e => simp [onTestCaseResult, hE] at hok
  | ok u =>
    have h1 : lookupA (onTestCaseResult rel snippet s t).1.tests t.id = none := by
      simp only [onTestCaseResult, hE]
      exact lookupA_eraseA_self s1.tests t.id
    refine ⟨h1, ?_, ?_⟩
    · intro l hl htid
      constructor
      · simp [onUserConsoleLog, hl, htid, h1]
      · simp only [onUserConsoleLog, hl, htid, if_neg htid, h1]
        exact lookupA_insertA_self _ _ _
    · intro a
      simp [onTestCaseArtifactRecord, h1]

/-- Witness for `result_removes_test`: an unmapped state (`queued`, no finish
call) still removes the test, after which a log is buffered and an artifact
ignored. -/
theorem result_removes_test_witness :
    (let s : Reporter :=
       { config := { testset := "set", description := none, attributes := [] },
         testRunId := some 0, suites := [], tests := [("t9", 4)], promises := [],
         bufferedLogs := [], coverage := none, nextUuid := 5 }
     let t : TestCase :=
       { id := "t9", name := "n", module := none, suiteChain := [],
         location := none, result := some { state := "queued", errors := [] } }
     let l : UserConsoleLog := { taskId := some "t9", content := "late", type := StreamKind.stdout }
     lookupA (onTestCaseResult id none s t).1.tests "t9" = none ∧
     (onUserConsoleLog (onTestCaseResult id none s t).1 l).2 = [] ∧
     onTestCaseArtifactRecord (onTestCaseResult id none s t).1 t
         { path := none, fileName := none, contentType := none } =
       ((onTestCaseResult id none s t).1, [])) := by
  have h := result_removes_test id none
    { config := { testset := "set", description := none, attributes := [] },
      testRunId := some 0, suites := [], tests := [("t9", 4)], promises := [],
      bufferedLogs := [], coverage := none, nextUuid := 5 }
    { id := "t9", name := "n", module := none, suiteChain := [],
      location := none, result := some { state := "queued", errors := [] } }
    rfl
  exact ⟨h.1,
    (h.2.1 { taskId := some "t9", content := "late", type := StreamKind.stdout } rfl
      (by decide)).1,
    h.2.2 { path := none, fileName := none, contentType := none }⟩

/-! ## Claim C8: artifact events (corrected) -/

/-- C8 counterexample: with the owning test known but an artifact that
exposes no string `path`, the event does emit the descriptive log yet
schedules no upload — the pending-upload set stays empty — refuting the
claim's unconditional "an asynchronous upload … is scheduled and added to
the pending-upload set". -/
theorem artifact_no_path_schedules_nothing :
    (let s : Reporter :=
       { config := { testset := "set", description := none, attributes := [] },
         testRunId := some 0, suites := [], tests := [("t1", 5)], promises := [],
         bufferedLogs := [], coverage := none, nextUuid := 6 }
     let t : TestCase :=
       { id := "t1", name := "shot", module := none, suiteChain := [],
         location := none, result := none }
     let a : Artifact := { path := none, fileName := none, contentType := none }
     (onTestCaseArtifactRecord s t a).2.countP isLogCall = 1 ∧
     (onTestCaseArtifactRecord s t a).1.promises = []) := by
  decide

/-- C8 amended: an artifact event for an unknown test is silently ignored
(no call, no state change); for a known test exactly one descriptive log
referencing the artifact is emitted, and — only under the source's
`if (path)` truthiness guard, i.e. when the artifact exposes a non-empty
string `path` — an upload tied to the test and that log entry is appended to
the pending-upload set, while an artifact whose `path` is absent or the
empty string gets the log but schedules nothing. -/
theorem artifact_event (s : Reporter) (t : TestCase) (a : Artifact) :
    (lookupA s.tests t.id = none → onTestCaseArtifactRecord s t a = (s, [])) ∧
    (∀ u, lookupA s.tests t.id = some u →
      (onTestCaseArtifactRecord s t a).2 =
        [ClientCall.log LogFormat.MARKDOWN LogLevel.INFO
          ("Attachment: " ++
            (match a.fileName with
             | some n => n
             | none =>
               match a.path with
               | some p => p
               | none => "artifact"))
          s.testRunId u] ∧
      (∀ p, a.path = some p → p ≠ "" →
        (onTestCaseArtifactRecord s t a).1.promises =
          s.promises ++
            [{ path := p, contentType := a.contentType.getD "application/octet-stream",
               testUUID := u, logUUID := s.nextUuid }]) ∧
      (a.path = none ∨ a.path = some "" →
        (onTestCaseArtifactRecord s t a).1.promises = s.promises)) := by
  constructor
  · intro h
    simp [onTestCaseArtifactRecord, h]
  · intro u hu
    cases hp : a.path with
    | none =>
      refine ⟨?_, ?_, ?_⟩
      · simp [onTestCaseArtifactRecord, hu, hp]
      · intro p hp'; exact absurd hp' (by simp)
      · intro _; simp [onTestCaseArtifactRecord, hu, hp]
    | some p0 =>
      by_cases hemp : p0 = ""
      · refine ⟨?_, ?_, ?_⟩
        · simp [onTestCaseArtifactRecord, hu, hp, hemp]
        · intro p hp' hne
          cases hp'
          exact absurd hemp hne
        · intro _
          simp [onTestCaseArtifactRecord, hu, hp, hemp]
      · refine ⟨?_, ?_, ?_⟩
        · simp [onTestCaseArtifactRecord, hu, hp, hemp]
        · intro p hp' hne
          cases hp'
          simp [onTestCaseArtifactRecord, hu, hp, hemp]
        · intro h
          rcases h with h | h
          · exact absurd h (by simp)
          · simp only [Option.some.injEq] at h
            exact absurd h hemp

/-- Witness for `artifact_event`: an unknown test is ignored; a known test
with a pathed artifact gets the log plus a scheduled upload. -/
theorem artifact_event_witness :
    (let s0 : Reporter := Reporter.init { testset := "set", description := none, attributes := [] }
     let s : Reporter :=
       { config := { testset := "set", description := none, attributes := [] },
         testRunId := some 0, suites := [], tests := [("t1", 5)], promises := [],
         bufferedLogs := [], coverage := none, nextUuid := 6 }
     let t : TestCase :=
       { id := "t1", name := "shot", module := none, suiteChain := [],
         location := none, result := none }
     let a : Artifact :=
       { path := some "artifacts/shot.png", fileName := none,
         contentType := some "image/png" }
     onTestCaseArtifactRecord s0 t a = (s0, []) ∧
     (onTestCaseArtifactRecord s t a).2 =
       [ClientCall.log LogFormat.MARKDOWN LogLevel.INFO "Attachment: artifacts/shot.png"
         (some 0) 5] ∧
     (onTestCaseArtifactRecord s t a).1.promises =
       [{ path := "artifacts/shot.png", contentType := "image/png", testUUID := 5,
          logUUID := 6 }]) := by
  refine ⟨?_, ?_, ?_⟩
  · exact (artifact_event
      (Reporter.init { testset := "set", description := none, attributes := [] })
      { id := "t1", name := "shot", module := none, suiteChain := [],
        location := none, result := none }
      { path := some "artifacts/shot.png", fileName := none,
        contentType := some "image/png" }).1 (by decide)
  · exact ((artifact_event
      { config := { testset := "set", description := none, attributes := [] },
        testRunId := some 0, suites := [], tests := [("t1", 5)], promises := [],
        bufferedLogs := [], coverage := none, nextUuid := 6 }
      { id := "t1", name := "shot", module := none, suiteChain := [],
        location := none, result := none }
      { path := some "artifacts/shot.png", fileName := none,
        contentType := some "image/png" }).2 5 (by decide)).1
  · exact ((artifact_event
      { config := { testset := "set", description := none, attributes := [] },
        testRunId := some 0, suites := [], tests := [("t1", 5)], promises := [],
        bufferedLogs := [], coverage := none, nextUuid := 6 }
      { id := "t1", name := "shot", module := none, suiteChain := [],
        location := none, result := none }
      { path := some "artifacts/shot.png", fileName := none,
        contentType := some "image/png" }).2 5 (by decide)).2.1 "artifacts/shot.png" rfl
      (by decide)

/-! ## Claims C1 and C6: run end, pending uploads, coverage summary -/

theorem awaitAllUploads_ok (runId : Option Nat) (fs : String → Except String (List Nat)) :
    ∀ ps : List PendingUpload, (∀ p ∈ ps, ∃ b, fs p.path = Except.ok b) →
    ∃ cs : List ClientCall, awaitAllUploads runId fs ps = Except.ok cs ∧
      cs.length = ps.length ∧ ∀ c ∈ cs, isSendAttachmentCall c = true := by
  intro ps
  induction ps with
  | nil => intro _; exact ⟨[], rfl, rfl, by intro c hc; simp at hc⟩
  | cons p rest ih =>
    intro h
    obtain ⟨b, hb⟩ := h p (by simp)
    obtain ⟨cs, hcs, hlen, hall⟩ := ih fun q hq => h q (by simp [hq])
    refine ⟨ClientCall.sendAttachment (lastPathSegment p.path) p.contentType runId
      p.testUUID p.logUUID :: cs, ?_, ?_, ?_⟩
    · simp [awaitAllUploads, resolveUpload, hb, hcs]
    · simp [hlen]
    · intro c hc
      rcases List.mem_cons.mp hc with hc | hc
      · subst hc; rfl
      · exact hall c hc

theorem reportCoverageSummary_trace_kinds (rel : String → String) (s : Reporter) :
    ∀ c ∈ (reportCoverageSummary rel s).2,
      isFinishTestRunCall c = false ∧ isSendAttachmentCall c = false := by
  intro c hc
  cases hcov : s.coverage with
  | none => simp [reportCoverageSummary, hcov] at hc
  | some cov =>
    simp only [reportCoverageSummary, hcov, reportCoverageSummaryTry] at hc
    rcases hg : getOrStartCoverageSuite s with ⟨s1, suiteCalls, su⟩
    rw [hg] at hc
    simp only [List.mem_append, List.mem_cons, List.mem_singleton] at hc
    have hsuite : ∀ d ∈ suiteCalls, isFinishTestRunCall d = false ∧ isSendAttachmentCall d = false := by
      intro d hd
      cases hk : lookupA s.suites "__orangebeard_coverage__" with
      | some u0 =>
        have heq : (getOrStartCoverageSuite s).2.1 = [] := by
          simp [getOrStartCoverageSuite, hk]
        rw [hg] at heq
        have heq2 : suiteCalls = [] := heq
        rw [heq2] at hd
        simp at hd
      | none =>
        have heq : (getOrStartCoverageSuite s).2.1 =
            [ClientCall.startSuite s.testRunId none ["Coverage"]] := by
          simp [getOrStartCoverageSuite, hk]
        rw [hg] at heq
        have heq2 : suiteCalls = [ClientCall.startSuite s.testRunId none ["Coverage"]] := heq
        rw [heq2] at hd
        simp at hd
        subst hd
        exact ⟨rfl, rfl⟩
    rcases hc with hc | hc | hc | hc | hc
    · exact hsuite c hc
    · subst hc; exact ⟨rfl, rfl⟩
    · subst hc; exact ⟨rfl, rfl⟩
    · subst hc; exact ⟨rfl, rfl⟩
    · simp at hc

theorem reportCoverageSummary_clears (rel : String → String) (s : Reporter) :
    (reportCoverageSummary rel s).1.coverage = none := by
  cases hcov : s.coverage with
  | none => simp [reportCoverageSummary, hcov]
  | some cov => simp [reportCoverageSummary, hcov, reportCoverageSummaryTry]

/-- C1 amended: run-end awaits every pending upload.  When all of them
resolve successfully the run is closed exactly once, as the very last call,
after every attachment send (one per pending upload); when any upload fails
the rejection of `Promise.all` propagates out of `onTestRunEnd` and no
run-close call is made (see the counterexample
`runEnd_aborts_on_failed_upload`). -/
theorem runEnd_awaits_uploads (rel : String → String)
    (fs : String → Except String (List Nat)) (s : Reporter)
    (hok : ∀ p ∈ s.promises, ∃ b, fs p.path = Except.ok b) :
    (onTestRunEnd rel fs s).2.2 = Except.ok () ∧
    (onTestRunEnd rel fs s).2.1.countP isFinishTestRunCall = 1 ∧
    (onTestRunEnd rel fs s).2.1.getLast? = some (ClientCall.finishTestRun s.testRunId) ∧
    (onTestRunEnd rel fs s).2.1.countP isSendAttachmentCall = s.promises.length := by
  obtain ⟨cs, hcs, hlen, hall⟩ := awaitAllUploads_ok s.testRunId fs s.promises hok
  have hcov := reportCoverageSummary_trace_kinds rel s
  have hcs0 : cs.countP isFinishTestRunCall = 0 := by
    rw [List.countP_eq_zero]
    intro c hc
    cases c <;> simp_all [isSendAttachmentCall, isFinishTestRunCall]
    exact absurd (hall _ hc) (by simp [isSendAttachmentCall])
  have hcov0 : (reportCoverageSummary rel s).2.countP isFinishTestRunCall = 0 := by
    rw [List.countP_eq_zero]
    intro c hc
    simp [(hcov c hc).1]
  have hcovA : (reportCoverageSummary rel s).2.countP isSendAttachmentCall = 0 := by
    rw [List.countP_eq_zero]
    intro c hc
    simp [(hcov c hc).2]
  have hcsA : cs.countP isSendAttachmentCall = cs.length := by
    rw [List.countP_eq_length]
    intro c hc
    exact hall c hc
  refine ⟨?_, ?_, ?_, ?_⟩
  · simp [onTestRunEnd, hcs]
  · simp only [onTestRunEnd, hcs, List.countP_append, List.countP_cons, List.countP_nil]
    rw [hcs0, hcov0]
    simp [isFinishTestRunCall]
  · simp only [onTestRunEnd, hcs, List.getLast?_append]
    simp
  · simp only [onTestRunEnd, hcs, List.countP_append, List.countP_cons, List.countP_nil]
    rw [hcsA, hcovA, hlen]
    simp [isSendAttachmentCall]

/-- C1 counterexample: a single pending upload whose byte read fails makes
`await Promise.all` reject: `onTestRunEnd` propagates the error and the
run-close call is never made, refuting "closes the run exactly once … not
aborted even if some upload fails". -/
theorem runEnd_aborts_on_failed_upload :
    (let s : Reporter :=
       { config := { testset := "set", description := none, attributes := [] },
         testRunId := some 0, suites := [], tests := [],
         promises := [{ path := "a.png", contentType := "image/png", testUUID := 1, logUUID := 2 }],
         bufferedLogs := [], coverage := none, nextUuid := 3 }
     let fs : String → Except String (List Nat) := fun _ => Except.error "Timeout"
     (onTestRunEnd id fs s).2.2 = Except.error "Timeout" ∧
     (onTestRunEnd id fs s).2.1.countP isFinishTestRunCall = 0) := by
  exact ⟨rfl, by decide⟩

/-- Witness for `runEnd_awaits_uploads`: two pending uploads that both
resolve; the trace sends both attachments and then closes the run once, at
the end. -/
theorem runEnd_awaits_uploads_witness :
    (let s : Reporter :=
       { config := { testset := "set", description := none, attributes := [] },
         testRunId := some 0, suites := [], tests := [],
         promises := [{ path := "a.png", contentType := "image/png", testUUID := 1, logUUID := 2 },
                      { path := "b/c.txt", contentType := "text/plain", testUUID := 1, logUUID := 4 }],
         bufferedLogs := [], coverage := none, nextUuid := 5 }
     let fs : String → Except String (List Nat) := fun _ => Except.ok [7]
     (onTestRunEnd id fs s).2.2 = Except.ok () ∧
     (onTestRunEnd id fs s).2.1.countP isFinishTestRunCall = 1 ∧
     (onTestRunEnd id fs s).2.1.getLast? = some (ClientCall.finishTestRun (some 0)) ∧
     (onTestRunEnd id fs s).2.1.countP isSendAttachmentCall = 2) := by
  exact runEnd_awaits_uploads id (fun _ => Except.ok [7])
    { config := { testset := "set", description := none, attributes := [] },
      testRunId := some 0, suites := [], tests := [],
      promises := [{ path := "a.png", contentType := "image/png", testUUID := 1, logUUID := 2 },
                   { path := "b/c.txt", contentType := "text/plain", testUUID := 1, logUUID := 4 }],
      bufferedLogs := [], coverage := none, nextUuid := 5 }
    (by intro p _; exact ⟨[7], rfl⟩)

/-- C6: with a coverage snapshot present, the run-end coverage step reuses
(or creates once, at top level) the "Coverage" suite, opens an AFTER-typed
entity named "Coverage report", emits exactly one log carrying the rendered
coverage table, finishes the entity with PASSED and clears the snapshot; the
snapshot is cleared on every branch of the try/catch/finally, and with all
uploads resolving the subsequent run close is emitted exactly once whatever
the coverage snapshot was. -/
theorem coverage_report_sequence (rel : String → String) (s : Reporter) (cov : Coverage)
    (hcov : s.coverage = some cov) :
    (reportCoverageSummary rel s).2 =
      (getOrStartCoverageSuite s).2.1 ++
      [ClientCall.startTest s.testRunId (getOrStartCoverageSuite s).2.2 "Coverage report"
         TestType.AFTER "Aggregated coverage summary reported by Vitest.",
       ClientCall.log LogFormat.MARKDOWN LogLevel.INFO (formatCoverageMarkdownTable rel cov)
         s.testRunId (getOrStartCoverageSuite s).1.nextUuid,
       ClientCall.finishTest (getOrStartCoverageSuite s).1.nextUuid s.testRunId
         TestStatus.PASSED] ∧
    (lookupA s.suites "__orangebeard_coverage__" = none →
      (getOrStartCoverageSuite s).2.1 = [ClientCall.startSuite s.testRunId none ["Coverage"]]) ∧
    (∀ u, lookupA s.suites "__orangebeard_coverage__" = some u →
      (getOrStartCoverageSuite s).2.1 = [] ∧ (getOrStartCoverageSuite s).2.2 = u) ∧
    (∀ s' : Reporter, (reportCoverageSummary rel s').1.coverage = none) ∧
    (∀ fs : String → Except String (List Nat),
      (∀ p ∈ s.promises, ∃ b, fs p.path = Except.ok b) →
      (onTestRunEnd rel fs s).2.1.countP isFinishTestRunCall = 1 ∧
      (onTestRunEnd rel fs s).2.2 = Except.ok ()) := by
  refine ⟨?_, ?_, ?_, fun s' => reportCoverageSummary_clears rel s', ?_⟩
  · rcases hg : getOrStartCoverageSuite s with ⟨s1, suiteCalls, su⟩
    simp [reportCoverageSummary, hcov, reportCoverageSummaryTry, hg]
  · intro h
    simp [getOrStartCoverageSuite, h]
  · intro u h
    simp [getOrStartCoverageSuite, h]
  · intro fs hok
    have h := runEnd_awaits_uploads rel fs s hok
    exact ⟨h.2.1, h.1⟩

/-- Witness for `coverage_report_sequence` at a concrete snapshot. -/
theorem coverage_report_sequence_witness :
    (let cov : Coverage := Coverage.summaryOnly
       { total := some 10, covered := some 5, skipped := none, pct := some 50 }
       { total := some 10, covered := some 5, skipped := none, pct := some 50 }
       { total := some 0, covered := some 0, skipped := none, pct := some 100 }
       { total := some 2, covered := some 1, skipped := none, pct := some 50 }
     let s : Reporter :=
       { config := { testset := "set", description := none, attributes := [] },
         testRunId := some 0, suites := [], tests := [], promises := [],
         bufferedLogs := [], coverage := some cov, nextUuid := 3 }
     (reportCoverageSummary id s).2 =
       [ClientCall.startSuite (some 0) none ["Coverage"],
        ClientCall.startTest (some 0) 3 "Coverage report" TestType.AFTER
          "Aggregated coverage summary reported by Vitest.",
        ClientCall.log LogFormat.MARKDOWN LogLevel.INFO (formatCoverageMarkdownTable id cov)
          (some 0) 4,
        ClientCall.finishTest 4 (some 0) TestStatus.PASSED] ∧
     (reportCoverageSummary id s).1.coverage = none) := by
  have h := coverage_report_sequence id
    { config := { testset := "set", description := none, attributes := [] },
      testRunId := some 0, suites := [], tests := [], promises := [],
      bufferedLogs := [],
      coverage := some (Coverage.summaryOnly
        { total := some 10, covered := some 5, skipped := none, pct := some 50 }
        { total := some 10, covered := some 5, skipped := none, pct := some 50 }
        { total := some 0, covered := some 0, skipped := none, pct := some 100 }
        { total := some 2, covered := some 1, skipped := none, pct := some 50 }),
      nextUuid := 3 }
    (Coverage.summaryOnly
      { total := some 10, covered := some 5, skipped := none, pct := some 50 }
      { total := some 10, covered := some 5, skipped := none, pct := some 50 }
      { total := some 0, covered := some 0, skipped := none, pct := some 100 }
      { total := some 2, covered := some 1, skipped := none, pct := some 50 })
    rfl
  refine ⟨?_, h.2.2.2.1 _⟩
  have h1 := h.1
  have h2 := h.2.1 rfl
  rw [h1, h2]
  rfl

/-! ## Claim C7: the coverage formatter is total and always yields a table -/

theorem intercalate_go_exists (s : String) (as : List String) :
    ∀ acc : String, ∃ t : String, String.intercalate.go acc s as = acc ++ t := by
  induction as with
  | nil => intro acc; exact ⟨"", by simp [String.intercalate.go]⟩
  | cons b bs ih =>
    intro acc
    obtain ⟨t, ht⟩ := ih (acc ++ s ++ b)
    refine ⟨s ++ b ++ t, ?_⟩
    simp only [String.intercalate.go, ht]
    simp [String.append_assoc]

theorem intercalate_cons_exists (s a : String) (as : List String) :
    ∃ t, String.intercalate s (a :: as) = a ++ t := by
  simp only [String.intercalate]
  exact intercalate_go_exists s as a

theorem intercalate_take2 (a : String) (as : List String)
    (h2 : a.data.take 2 = ['|', ' ']) (hlen : 2 ≤ a.data.length) :
    (String.intercalate "\n" (a :: as)).data.take 2 = ['|', ' '] := by
  obtain ⟨t, ht⟩ := intercalate_cons_exists "\n" a as
  rw [ht, String.data_append, List.take_append_of_le_length hlen, h2]

theorem escFlat_head_ne (l : List Char) (d : Char) (ds : List Char)
    (h : (l.flatMap fun c => if c = '|' then ['\\', '|'] else [c]) = d :: ds) : d ≠ '|' := by
  cases l with
  | nil => simp at h
  | cons c rest =>
    rw [List.flatMap_cons] at h
    by_cases hc : c = '|'
    · rw [if_pos hc] at h
      simp at h
      rw [← h.1]
      decide
    · rw [if_neg hc] at h
      simp at h
      rw [← h.1]
      exact hc

theorem pipesEscaped_cons_of_ne (c : Char) (rest : List Char) (hc : c ≠ '|')
    (hrest : ∀ d ds, rest = d :: ds → d ≠ '|') :
    pipesEscaped (c :: rest) = pipesEscaped rest := by
  conv_lhs => rw [pipesEscaped.eq_def]
  split
  · rename_i heq
    exact absurd heq (by simp)
  · rename_i heq
    obtain ⟨h1, -⟩ := List.cons_eq_cons.mp heq
    exact absurd h1 hc
  · rename_i rest' heq
    obtain ⟨-, h2⟩ := List.cons_eq_cons.mp heq
    exact absurd rfl (hrest '|' rest' h2)
  · rename_i heq
    obtain ⟨-, h2⟩ := List.cons_eq_cons.mp heq
    rw [h2]

theorem escapePipes_escaped (l : List Char) :
    pipesEscaped (l.flatMap fun c => if c = '|' then ['\\', '|'] else [c]) = true := by
  induction l with
  | nil => rfl
  | cons c rest ih =>
    rw [List.flatMap_cons]
    by_cases hc : c = '|'
    · rw [if_pos hc]
      show pipesEscaped ('\\' :: '|' :: _) = true
      rw [show ∀ xs, pipesEscaped ('\\' :: '|' :: xs) = pipesEscaped xs from fun _ => rfl]
      exact ih
    · rw [if_neg hc]
      simp only [List.cons_append, List.nil_append]
      rw [pipesEscaped_cons_of_ne c _ hc (escFlat_head_ne rest)]
      exact ih

/-- C7: the coverage formatter is a total function (in this embedding, by
construction) whose output always begins a markdown table: for every input
shape the first two characters are `| `; an unrecognized input that does
serialize yields the two-column fallback whose embedded serialization has
every table delimiter `|` escaped; an unrecognized input whose serialization
fails yields the minimal placeholder table. -/
theorem coverage_formatter_total (rel : String → String) (c : Coverage) :
    (formatCoverageMarkdownTable rel c).data.take 2 = ['|', ' '] ∧
    (∀ j, c = Coverage.raw (some j) →
      formatCoverageMarkdownTable rel c =
        String.intercalate "\n"
          ["| Metric | Value |", "| ------ | ----- |", "| Coverage JSON | ```json",
           escapePipes j, "``` |"] ∧
      pipesEscaped (escapePipes j).data = true) ∧
    (c = Coverage.raw none →
      formatCoverageMarkdownTable rel c =
        "| Metric | Value |\n| ------ | ----- |\n| Coverage | (unserializable) |") := by
  refine ⟨?_, ?_, ?_⟩
  · cases c with
    | covMap files fileCov getCoverageSummary =>
      simp only [formatCoverageMarkdownTable, headerRows, List.cons_append]
      exact intercalate_take2 _ _ (by decide) (by decide)
    | summaryOnly lines statements branches functions =>
      simp only [formatCoverageMarkdownTable, headerRows, List.cons_append]
      exact intercalate_take2 _ _ (by decide) (by decide)
    | raw json =>
      cases json with
      | some j =>
        simp only [formatCoverageMarkdownTable]
        exact intercalate_take2 _ _ (by decide) (by decide)
      | none => rfl
  · intro j hj
    subst hj
    refine ⟨rfl, ?_⟩
    simp only [escapePipes]
    exact escapePipes_escaped j.data
  · intro hj
    subst hj
    rfl

/-- Witness for `coverage_formatter_total`, applied to a serializable
unrecognized input and to one whose serialization failed. -/
theorem coverage_formatter_total_witness :
    ((formatCoverageMarkdownTable id (Coverage.raw (some "a|b"))).data.take 2 = ['|', ' '] ∧
     formatCoverageMarkdownTable id (Coverage.raw (some "a|b")) =
       String.intercalate "\n"
         ["| Metric | Value |", "| ------ | ----- |", "| Coverage JSON | ```json",
          escapePipes "a|b", "``` |"] ∧
     pipesEscaped (escapePipes "a|b").data = true ∧
     formatCoverageMarkdownTable id (Coverage.raw none) =
       "| Metric | Value |\n| ------ | ----- |\n| Coverage | (unserializable) |") := by
  have h1 := coverage_formatter_total id (Coverage.raw (some "a|b"))
  have h2 := coverage_formatter_total id (Coverage.raw none)
  exact ⟨h1.1, (h1.2.1 "a|b" rfl).1, (h1.2.1 "a|b" rfl).2, h2.2.2 rfl⟩

/-! ## Claim C3: console-log buffering and FIFO flushing -/

theorem suiteLoop_trace_kinds (runId : Option Nat) :
    ∀ (segs keyParts : List String) (suites : List (String × Nat)) (next : Nat)
      (parent : Option Nat) (c : ClientCall),
      c ∈ (suiteLoop runId keyParts suites next parent segs).trace →
      isStartSuiteCall c = true := by
  intro segs
  induction segs with
  | nil => intro keyParts suites next parent c hc; simp [suiteLoop] at hc
  | cons seg rest ih =>
    intro keyParts suites next parent c hc
    simp only [suiteLoop] at hc
    cases hk : lookupA suites (String.intercalate "|" (keyParts ++ [seg])) with
    | some existing =>
      rw [hk] at hc
      exact ih _ _ _ _ c hc
    | none =>
      rw [hk] at hc
      simp only [List.mem_cons] at hc
      rcases hc with hc | hc
      · subst hc; rfl
      · exact ih _ _ _ _ c hc

theorem suiteLoop_parent_isSome (runId : Option Nat) :
    ∀ (segs keyParts : List String) (suites : List (String × Nat)) (next : Nat)
      (parent : Option Nat), parent.isSome = true ∨ segs ≠ [] →
      (suiteLoop runId keyParts suites next parent segs).parent.isSome = true := by
  intro segs
  induction segs with
  | nil =>
    intro keyParts suites next parent h
    rcases h with h | h
    · exact h
    · exact absurd rfl h
  | cons seg rest ih =>
    intro keyParts suites next parent _
    simp only [suiteLoop]
    cases hk : lookupA suites (String.intercalate "|" (keyParts ++ [seg])) with
    | some existing => exact ih _ _ _ _ (Or.inl rfl)
    | none => exact ih _ _ _ _ (Or.inl rfl)

theorem notLog_of_startSuite (c : ClientCall) (h : isStartSuiteCall c = true) :
    isLogCall c = false := by
  cases c <;> simp_all [isStartSuiteCall, isLogCall]

/-- Behaviour of `ensureTestStarted` on a not-yet-known test with a
resolvable suite path: it succeeds, records the fresh identifier, forwards
exactly the buffered logs (in order) as its only log calls, and discards the
buffer for the identifier. -/
theorem ensureTestStarted_new (rel : String → String) (s : Reporter) (t : TestCase)
    (hunknown : lookupA s.tests t.id = none) (hpath : buildSuitePath rel t ≠ []) :
    (ensureTestStarted rel s t).2.2 = Except.ok
      (suiteLoop s.testRunId [] s.suites s.nextUuid none (buildSuitePath rel t)).nextUuid ∧
    lookupA (ensureTestStarted rel s t).1.tests t.id = some
      (suiteLoop s.testRunId [] s.suites s.nextUuid none (buildSuitePath rel t)).nextUuid ∧
    (ensureTestStarted rel s t).1.testRunId = s.testRunId ∧
    (ensureTestStarted rel s t).2.1.filter isLogCall =
      ((lookupA s.bufferedLogs t.id).getD []).map (logCallOf s.testRunId
        (suiteLoop s.testRunId [] s.suites s.nextUuid none (buildSuitePath rel t)).nextUuid) ∧
    (lookupA (ensureTestStarted rel s t).1.bufferedLogs t.id).getD [] = [] ∧
    ((lookupA s.bufferedLogs t.id).getD [] ≠ [] →
      lookupA (ensureTestStarted rel s t).1.bufferedLogs t.id = none) := by
  have hsome := suiteLoop_parent_isSome s.testRunId (buildSuitePath rel t) [] s.suites
    s.nextUuid none (Or.inr hpath)
  obtain ⟨u0, hu0⟩ := Option.isSome_iff_exists.mp hsome
  have hfilterSuite : (suiteLoop s.testRunId [] s.suites s.nextUuid none
      (buildSuitePath rel t)).trace.filter isLogCall = [] := by
    rw [List.filter_eq_nil_iff]
    intro c hc
    simp [notLog_of_startSuite c (suiteLoop_trace_kinds s.testRunId _ _ _ _ _ c hc)]
  have hmapLog : ∀ (bl : List UserConsoleLog) (rid : Option Nat) (u : Nat),
      List.filter isLogCall (bl.map (logCallOf rid u)) = bl.map (logCallOf rid u) := by
    intro bl rid u
    rw [List.filter_eq_self]
    intro a ha
    obtain ⟨l, -, hl⟩ := List.mem_map.mp ha
    rw [← hl]
    rfl
  cases hb : lookupA s.bufferedLogs t.id with
  | none =>
    refine ⟨?_, ?_, ?_, ?_, ?_, ?_⟩
    · simp [ensureTestStarted, hunknown, getOrStartSuiteForTest, hu0, flushBufferedLogs, hb]
    · simp [ensureTestStarted, hunknown, getOrStartSuiteForTest, hu0, flushBufferedLogs, hb,
        lookupA_insertA_self]
    · simp [ensureTestStarted, hunknown, getOrStartSuiteForTest, hu0, flushBufferedLogs, hb]
    · simp [ensureTestStarted, hunknown, getOrStartSuiteForTest, hu0, flushBufferedLogs, hb,
        List.filter_append, hfilterSuite, isLogCall]
    · simp [ensureTestStarted, hunknown, getOrStartSuiteForTest, hu0, flushBufferedLogs, hb]
    · intro h; simp [hb] at h
  | some bl =>
    cases hbe : bl.isEmpty with
    | true =>
      have hbl : bl = [] := List.isEmpty_iff.mp hbe
      subst hbl
      refine ⟨?_, ?_, ?_, ?_, ?_, ?_⟩
      · simp [ensureTestStarted, hunknown, getOrStartSuiteForTest, hu0, flushBufferedLogs, hb]
      · simp [ensureTestStarted, hunknown, getOrStartSuiteForTest, hu0, flushBufferedLogs, hb,
          lookupA_insertA_self]
      · simp [ensureTestStarted, hunknown, getOrStartSuiteForTest, hu0, flushBufferedLogs, hb]
      · simp [ensureTestStarted, hunknown, getOrStartSuiteForTest, hu0, flushBufferedLogs, hb,
          List.filter_append, hfilterSuite, isLogCall]
      · simp [ensureTestStarted, hunknown, getOrStartSuiteForTest, hu0, flushBufferedLogs, hb]
      · intro h; simp [hb] at h
    | false =>
      refine ⟨?_, ?_, ?_, ?_, ?_, ?_⟩
      · simp [ensureTestStarted, hunknown, getOrStartSuiteForTest, hu0, flushBufferedLogs, hb, hbe]
      · simp [ensureTestStarted, hunknown, getOrStartSuiteForTest, hu0, flushBufferedLogs, hb, hbe,
          lookupA_insertA_self]
      · simp [ensureTestStarted, hunknown, getOrStartSuiteForTest, hu0, flushBufferedLogs, hb, hbe]
      · simp only [ensureTestStarted, hunknown, getOrStartSuiteForTest, hu0, flushBufferedLogs,
          hb, hbe]
        simp only [List.filter_append, hfilterSuite, hmapLog]
        simp [isLogCall]
        intro a ha
        rfl
      · simp [ensureTestStarted, hunknown, getOrStartSuiteForTest, hu0, flushBufferedLogs, hb, hbe,
          lookupA_eraseA_self]
      · intro _
        simp [ensureTestStarted, hunknown, getOrStartSuiteForTest, hu0, flushBufferedLogs, hb, hbe,
          lookupA_eraseA_self]

theorem processLogs_buffered (tid : String) (htid : tid ≠ "") :
    ∀ (logs : List UserConsoleLog) (s : Reporter),
      (∀ l ∈ logs, l.taskId = some tid) →
      lookupA s.tests tid = none →
      (processLogs s logs).2 = [] ∧
      (processLogs s logs).1.tests = s.tests ∧
      (processLogs s logs).1.suites = s.suites ∧
      (processLogs s logs).1.nextUuid = s.nextUuid ∧
      (processLogs s logs).1.testRunId = s.testRunId ∧
      (lookupA (processLogs s logs).1.bufferedLogs tid).getD [] =
        (lookupA s.bufferedLogs tid).getD [] ++ logs := by
  intro logs
  induction logs with
  | nil => intro s _ _; exact ⟨rfl, rfl, rfl, rfl, rfl, by simp [processLogs]⟩
  | cons l rest ih =>
    intro s hall hunknown
    have hl := hall l (by simp)
    have hstep : onUserConsoleLog s l =
        ({ s with
            bufferedLogs :=
              insertA s.bufferedLogs tid ((lookupA s.bufferedLogs tid).getD [] ++ [l]) },
         []) := by
      simp [onUserConsoleLog, hl, htid, hunknown]
    have hrest := ih
      { s with
          bufferedLogs :=
            insertA s.bufferedLogs tid ((lookupA s.bufferedLogs tid).getD [] ++ [l]) }
      (fun q hq => hall q (by simp [hq])) hunknown
    obtain ⟨r1, r2, r3, r4, r5, r6⟩ := hrest
    refine ⟨?_, ?_, ?_, ?_, ?_, ?_⟩
    · simp only [processLogs, hstep]
      simpa using r1
    · simp only [processLogs, hstep]
      exact r2
    · simp only [processLogs, hstep]
      exact r3
    · simp only [processLogs, hstep]
      exact r4
    · simp only [processLogs, hstep]
      exact r5
    · simp only [processLogs, hstep]
      rw [r6]
      simp [lookupA_insertA_self]

theorem processLogs_forwarded (tid : String) (u : Nat) (htid : tid ≠ "") :
    ∀ (logs : List UserConsoleLog) (s : Reporter),
      (∀ l ∈ logs, l.taskId = some tid) →
      lookupA s.tests tid = some u →
      processLogs s logs = (s, logs.map (logCallOf s.testRunId u)) := by
  intro logs
  induction logs with
  | nil => intro s _ _; rfl
  | cons l rest ih =>
    intro s hall hknown
    have hl := hall l (by simp)
    have hstep : onUserConsoleLog s l = (s, [logCallOf s.testRunId u l]) := by
      simp [onUserConsoleLog, hl, htid, hknown, logCallOf]
    have hrest := ih s (fun q hq => hall q (by simp [hq])) hknown
    simp only [processLogs, hstep, hrest, List.map_cons]
    rfl

/-- C3: console logs for a test observed before the test becomes known are
buffered with no remote call; when the test becomes known (readiness event)
every buffered log is forwarded exactly once — the flushed calls are
precisely the buffered entries, in FIFO order, and are the only log calls of
the readiness trace — after which the buffer for the identifier is
discarded; logs observed afterwards are forwarded immediately, each as one
log call, in order, after all flushed ones. -/
theorem console_log_buffering (rel : String → String) (s : Reporter) (t : TestCase)
    (pre post : List UserConsoleLog)
    (htid : t.id ≠ "") (hpath : buildSuitePath rel t ≠ [])
    (hunknown : lookupA s.tests t.id = none)
    (hpre : ∀ l ∈ pre, l.taskId = some t.id) (hpost : ∀ l ∈ post, l.taskId = some t.id) :
    (processLogs s pre).2 = [] ∧
    (∃ u : Nat,
      (onTestCaseReady rel (processLogs s pre).1 t).2.2 = Except.ok () ∧
      lookupA (onTestCaseReady rel (processLogs s pre).1 t).1.tests t.id = some u ∧
      (onTestCaseReady rel (processLogs s pre).1 t).2.1.filter isLogCall =
        ((lookupA s.bufferedLogs t.id).getD [] ++ pre).map (logCallOf s.testRunId u) ∧
      (lookupA (onTestCaseReady rel (processLogs s pre).1 t).1.bufferedLogs t.id).getD [] = [] ∧
      ((lookupA s.bufferedLogs t.id).getD [] ++ pre ≠ [] →
        lookupA (onTestCaseReady rel (processLogs s pre).1 t).1.bufferedLogs t.id = none) ∧
      processLogs (onTestCaseReady rel (processLogs s pre).1 t).1 post =
        ((onTestCaseReady rel (processLogs s pre).1 t).1,
         post.map (logCallOf s.testRunId u))) := by
  have hP := processLogs_buffered t.id htid pre s hpre hunknown
  obtain ⟨hP1, hPtests, hPsuites, hPnext, hPrun, hPbuf⟩ := hP
  have hU : lookupA (processLogs s pre).1.tests t.id = none := by
    rw [hPtests]; exact hunknown
  have hE := ensureTestStarted_new rel (processLogs s pre).1 t hU hpath
  rw [hPsuites, hPnext, hPrun, hPbuf] at hE
  obtain ⟨hE1, hE2, hE3, hE4, hE5, hE6⟩ := hE
  refine ⟨hP1, ⟨(suiteLoop s.testRunId [] s.suites s.nextUuid none
    (buildSuitePath rel t)).nextUuid, ?_, ?_, ?_, ?_, ?_, ?_⟩⟩
  · rcases hEq : ensureTestStarted rel (processLogs s pre).1 t with ⟨se, ce, re⟩
    rw [hEq] at hE1
    simp only [onTestCaseReady, hEq]
    rw [show re = Except.ok (suiteLoop s.testRunId [] s.suites s.nextUuid none
      (buildSuitePath rel t)).nextUuid from hE1]
    rfl
  · rcases hEq : ensureTestStarted rel (processLogs s pre).1 t with ⟨se, ce, re⟩
    rw [hEq] at hE2
    simp only [onTestCaseReady, hEq]
    exact hE2
  · rcases hEq : ensureTestStarted rel (processLogs s pre).1 t with ⟨se, ce, re⟩
    rw [hEq] at hE4
    simp only [onTestCaseReady, hEq]
    exact hE4
  · rcases hEq : ensureTestStarted rel (processLogs s pre).1 t with ⟨se, ce, re⟩
    rw [hEq] at hE5
    simp only [onTestCaseReady, hEq]
    exact hE5
  · rcases hEq : ensureTestStarted rel (processLogs s pre).1 t with ⟨se, ce, re⟩
    rw [hEq] at hE6
    simp only [onTestCaseReady, hEq]
    exact hE6
  · rcases hEq : ensureTestStarted rel (processLogs s pre).1 t with ⟨se, ce, re⟩
    rw [hEq] at hE2 hE3
    simp only [onTestCaseReady, hEq]
    have := processLogs_forwarded t.id (suiteLoop s.testRunId [] s.suites s.nextUuid none
      (buildSuitePath rel t)).nextUuid htid post se hpost hE2
    rw [this]
    rw [show se.testRunId = s.testRunId from hE3]

/-- Witness for `console_log_buffering`: one early log (buffered, then
flushed by the readiness event) and one late log (forwarded immediately). -/
theorem console_log_buffering_witness :
    (let s : Reporter :=
       { config := { testset := "set", description := none, attributes := [] },
         testRunId := some 0, suites := [], tests := [], promises := [],
         bufferedLogs := [], coverage := none, nextUuid := 1 }
     let t : TestCase :=
       { id := "tc", name := "logs", module := none, suiteChain := ["suite a"],
         location := none, result := none }
     let preL : List UserConsoleLog :=
       [{ taskId := some "tc", content := "early", type := StreamKind.stdout }]
     let postL : List UserConsoleLog :=
       [{ taskId := some "tc", content := "late", type := StreamKind.stderr }]
     (processLogs s preL).2 = [] ∧
     (∃ u : Nat,
       (onTestCaseReady id (processLogs s preL).1 t).2.2 = Except.ok () ∧
       lookupA (onTestCaseReady id (processLogs s preL).1 t).1.tests t.id = some u ∧
       (onTestCaseReady id (processLogs s preL).1 t).2.1.filter isLogCall =
         ((lookupA s.bufferedLogs t.id).getD [] ++ preL).map (logCallOf s.testRunId u) ∧
       (lookupA (onTestCaseReady id (processLogs s preL).1 t).1.bufferedLogs t.id).getD [] = [] ∧
       ((lookupA s.bufferedLogs t.id).getD [] ++ preL ≠ [] →
         lookupA (onTestCaseReady id (processLogs s preL).1 t).1.bufferedLogs t.id = none) ∧
       processLogs (onTestCaseReady id (processLogs s preL).1 t).1 postL =
         ((onTestCaseReady id (processLogs s preL).1 t).1,
          postL.map (logCallOf s.testRunId u)))) := by
  exact console_log_buffering id
    { config := { testset := "set", description := none, attributes := [] },
      testRunId := some 0, suites := [], tests := [], promises := [],
      bufferedLogs := [], coverage := none, nextUuid := 1 }
    { id := "tc", name := "logs", module := none, suiteChain := ["suite a"],
      location := none, result := none }
    [{ taskId := some "tc", content := "early", type := StreamKind.stdout }]
    [{ taskId := some "tc", content := "late", type := StreamKind.stderr }]
    (by decide) (by decide) rfl (by decide) (by decide)

/-! ## Claim C4: suite resolution is memoized per path prefix -/

theorem intercalate_go_snoc (s x : String) :
    ∀ (as : List String) (acc : String),
      String.intercalate.go acc s (as ++ [x]) = String.intercalate.go acc s as ++ s ++ x := by
  intro as
  induction as with
  | nil => intro acc; rfl
  | cons b bs ih =>
    intro acc
    rw [List.cons_append]
    show String.intercalate.go (acc ++ s ++ b) s (bs ++ [x]) = _
    rw [ih (acc ++ s ++ b)]
    rfl

theorem intercalate_snoc (s x : String) (l : List String) (h : l ≠ []) :
    String.intercalate s (l ++ [x]) = String.intercalate s l ++ s ++ x := by
  cases l with
  | nil => exact absurd rfl h
  | cons a as =>
    rw [List.cons_append]
    show String.intercalate.go a s (as ++ [x]) = String.intercalate.go a s as ++ s ++ x
    exact intercalate_go_snoc s x as a

theorem string_length_pos_of_ne_empty (x : String) (hx : x ≠ "") : 0 < x.length := by
  by_contra h
  apply hx
  have h0 : x.length = 0 := by omega
  cases x with
  | mk d =>
    cases d with
    | nil => rfl
    | cons c cs => simp [String.length] at h0

theorem key_len_lt (kp : List String) (x : String) (hx : x ≠ "") :
    (String.intercalate "|" kp).length < (String.intercalate "|" (kp ++ [x])).length := by
  cases kp with
  | nil =>
    show (String.intercalate "|" []).length < (String.intercalate "|" [x]).length
    have h1 : String.intercalate "|" ([] : List String) = "" := rfl
    have h2 : String.intercalate "|" [x] = x := rfl
    rw [h1, h2]
    exact string_length_pos_of_ne_empty x hx
  | cons a as =>
    rw [intercalate_snoc "|" x (a :: as) (by simp)]
    rw [String.length_append, String.length_append]
    have h1 : (0 : Nat) < ("|" : String).length := by decide
    omega

theorem prefixKeys_longer :
    ∀ (segs kp : List String), (∀ seg ∈ segs, seg ≠ "") →
      ∀ k ∈ prefixKeys kp segs, (String.intercalate "|" kp).length < k.length := by
  intro segs
  induction segs with
  | nil => intro kp _ k hk; simp [prefixKeys] at hk
  | cons seg rest ih =>
    intro kp hall k hk
    simp only [prefixKeys, List.mem_cons] at hk
    rcases hk with hk | hk
    · subst hk
      exact key_len_lt kp seg (hall seg (by simp))
    · exact lt_trans (key_len_lt kp seg (hall seg (by simp)))
        (ih (kp ++ [seg]) (fun q hq => hall q (by simp [hq])) k hk)

theorem prefixKeys_nodup :
    ∀ (segs kp : List String), (∀ seg ∈ segs, seg ≠ "") → (prefixKeys kp segs).Nodup := by
  intro segs
  induction segs with
  | nil => intro kp _; simp [prefixKeys]
  | cons seg rest ih =>
    intro kp hall
    simp only [prefixKeys, List.nodup_cons]
    constructor
    · intro hmem
      have := prefixKeys_longer rest (kp ++ [seg]) (fun q hq => hall q (by simp [hq])) _ hmem
      omega
    · exact ih (kp ++ [seg]) fun q hq => hall q (by simp [hq])

theorem prefixKeys_length : ∀ (segs kp : List String), (prefixKeys kp segs).length = segs.length := by
  intro segs
  induction segs with
  | nil => intro kp; rfl
  | cons seg rest ih => intro kp; simp [prefixKeys, ih]

theorem suiteLoop_mono (runId : Option Nat) :
    ∀ (segs kp : List String) (suites : List (String × Nat)) (next : Nat)
      (parent : Option Nat) (k : String) (v : Nat),
      lookupA suites k = some v →
      lookupA (suiteLoop runId kp suites next parent segs).suites k = some v := by
  intro segs
  induction segs with
  | nil => intro kp suites next parent k v h; exact h
  | cons seg rest ih =>
    intro kp suites next parent k v h
    simp only [suiteLoop]
    cases hk : lookupA suites (String.intercalate "|" (kp ++ [seg])) with
    | some existing => exact ih _ _ _ _ k v h
    | none =>
      apply ih
      have hne : k ≠ String.intercalate "|" (kp ++ [seg]) := by
        intro he; rw [he, hk] at h; exact Option.noConfusion h
      rw [lookupA_insertA_ne _ _ _ _ hne]
      exact h

theorem suiteLoop_mem_after (runId : Option Nat) :
    ∀ (segs kp : List String) (suites : List (String × Nat)) (next : Nat)
      (parent : Option Nat) (k : String), k ∈ prefixKeys kp segs →
      (lookupA (suiteLoop runId kp suites next parent segs).suites k).isSome = true := by
  intro segs
  induction segs with
  | nil => intro kp suites next parent k hk; simp [prefixKeys] at hk
  | cons seg rest ih =>
    intro kp suites next parent k hk
    simp only [prefixKeys, List.mem_cons] at hk
    simp only [suiteLoop]
    cases hlk : lookupA suites (String.intercalate "|" (kp ++ [seg])) with
    | some existing =>
      rcases hk with hk | hk
      · subst hk
        rw [suiteLoop_mono runId rest _ _ _ _ _ existing hlk]
        rfl
      · exact ih _ _ _ _ k hk
    | none =>
      rcases hk with hk | hk
      · subst hk
        rw [suiteLoop_mono runId rest _ _ _ _ _ next (lookupA_insertA_self _ _ _)]
        rfl
      · exact ih _ _ _ _ k hk

theorem suiteLoop_memoized (runId : Option Nat) :
    ∀ (segs kp : List String) (suites : List (String × Nat)) (next : Nat)
      (parent : Option Nat),
      (∀ k ∈ prefixKeys kp segs, (lookupA suites k).isSome = true) →
      (suiteLoop runId kp suites next parent segs).trace = [] ∧
      (suiteLoop runId kp suites next parent segs).suites = suites ∧
      (suiteLoop runId kp suites next parent segs).nextUuid = next := by
  intro segs
  induction segs with
  | nil => intro kp suites next parent _; exact ⟨rfl, rfl, rfl⟩
  | cons seg rest ih =>
    intro kp suites next parent h
    have hh := h (String.intercalate "|" (kp ++ [seg])) (by simp [prefixKeys])
    obtain ⟨e, he⟩ := Option.isSome_iff_exists.mp hh
    simp only [suiteLoop, he]
    exact ih _ _ _ _ fun k hk => h k (by simp [prefixKeys, hk])

theorem suiteLoop_parent_memoized (runId : Option Nat) :
    ∀ (segs kp : List String) (suites : List (String × Nat)) (next : Nat)
      (parent : Option Nat), segs ≠ [] →
      ∃ u, (suiteLoop runId kp suites next parent segs).parent = some u ∧
        lookupA (suiteLoop runId kp suites next parent segs).suites
          (String.intercalate "|" (kp ++ segs)) = some u := by
  intro segs
  induction segs with
  | nil => intro kp suites next parent h; exact absurd rfl h
  | cons seg rest ih =>
    intro kp suites next parent _
    simp only [suiteLoop]
    cases hrest : rest with
    | nil =>
      cases hlk : lookupA suites (String.intercalate "|" (kp ++ [seg])) with
      | some existing =>
        refine ⟨existing, rfl, ?_⟩
        show lookupA suites (String.intercalate "|" (kp ++ [seg])) = some existing
        exact hlk
      | none =>
        refine ⟨next, rfl, ?_⟩
        show lookupA (insertA suites (String.intercalate "|" (kp ++ [seg])) next)
          (String.intercalate "|" (kp ++ [seg])) = some next
        exact lookupA_insertA_self _ _ _
    | cons r rs =>
      have hne : rest ≠ [] := by rw [hrest]; simp
      rw [← hrest]
      have hkeys : kp ++ seg :: rest = (kp ++ [seg]) ++ rest := by simp
      cases hlk : lookupA suites (String.intercalate "|" (kp ++ [seg])) with
      | some existing =>
        obtain ⟨u, hu1, hu2⟩ := ih (kp ++ [seg]) suites next (some existing) hne
        exact ⟨u, hu1, by rw [hkeys]; exact hu2⟩
      | none =>
        obtain ⟨u, hu1, hu2⟩ := ih (kp ++ [seg])
          (insertA suites (String.intercalate "|" (kp ++ [seg])) next) (next + 1)
          (some next) hne
        exact ⟨u, hu1, by rw [hkeys]; exact hu2⟩

theorem suiteLoop_fresh (runId : Option Nat) :
    ∀ (segs kp : List String) (suites : List (String × Nat)) (next : Nat)
      (parent : Option Nat),
      (∀ k ∈ prefixKeys kp segs, lookupA suites k = none) →
      (prefixKeys kp segs).Nodup →
      (suiteLoop runId kp suites next parent segs).trace =
        freshSuiteTrace runId parent next segs ∧
      (suiteLoop runId kp suites next parent segs).nextUuid = next + segs.length ∧
      (suiteLoop runId kp suites next parent segs).parent =
        (match segs with
         | [] => parent
         | _ :: _ => some (next + segs.length - 1)) := by
  intro segs
  induction segs with
  | nil => intro kp suites next parent _ _; exact ⟨rfl, rfl, rfl⟩
  | cons seg rest ih =>
    intro kp suites next parent hmiss hnodup
    have hk0 : lookupA suites (String.intercalate "|" (kp ++ [seg])) = none :=
      hmiss _ (by simp [prefixKeys])
    simp only [prefixKeys, List.nodup_cons] at hnodup
    have hmiss' : ∀ k ∈ prefixKeys (kp ++ [seg]) rest,
        lookupA (insertA suites (String.intercalate "|" (kp ++ [seg])) next) k = none := by
      intro k hk
      have hne : k ≠ String.intercalate "|" (kp ++ [seg]) := by
        intro he; rw [he] at hk; exact hnodup.1 hk
      rw [lookupA_insertA_ne _ _ _ _ hne]
      exact hmiss k (by simp [prefixKeys, hk])
    obtain ⟨ht, hn, hp⟩ := ih (kp ++ [seg])
      (insertA suites (String.intercalate "|" (kp ++ [seg])) next) (next + 1)
      (some next) hmiss' hnodup.2
    simp only [suiteLoop, hk0]
    refine ⟨?_, ?_, ?_⟩
    · simp only [ht, freshSuiteTrace]
    · rw [hn]; simp [List.length_cons]; omega
    · cases rest with
      | nil => rw [hp]; simp
      | cons r rs =>
        rw [hp]
        simp only [List.length_cons]
        congr 1
        omega

theorem buildSuitePath_nonblank (rel : String → String) (t : TestCase) :
    ∀ seg ∈ buildSuitePath rel t, seg ≠ "" := by
  intro seg hseg
  unfold buildSuitePath at hseg
  rw [List.mem_filter] at hseg
  have := hseg.2
  simp at this
  exact this.1

/-- C4: suite resolution is memoized by joined path-prefix key.  From a state
in which no prefix of the test's path is memoized, one resolution issues
exactly one suite-creation call per path prefix (the prefixes are pairwise
distinct), in prefix order and each under the identifier the previous prefix
just received (`freshSuiteTrace`); resolving the same path again — for the
same test or any test with the same path — issues no further call and
returns the same suite identifier. -/
theorem suite_resolution_memoized (rel : String → String) (s : Reporter) (t t' : TestCase)
    (hpath : buildSuitePath rel t ≠ [])
    (hfresh : ∀ k ∈ prefixKeys [] (buildSuitePath rel t), lookupA s.suites k = none)
    (hsame : buildSuitePath rel t' = buildSuitePath rel t) :
    (getOrStartSuiteForTest rel s t).2.1 =
      freshSuiteTrace s.testRunId none s.nextUuid (buildSuitePath rel t) ∧
    (getOrStartSuiteForTest rel s t).2.1.length =
      (prefixKeys [] (buildSuitePath rel t)).length ∧
    (prefixKeys [] (buildSuitePath rel t)).Nodup ∧
    (getOrStartSuiteForTest rel (getOrStartSuiteForTest rel s t).1 t').2.1 = [] ∧
    (getOrStartSuiteForTest rel (getOrStartSuiteForTest rel s t).1 t').2.2 =
      (getOrStartSuiteForTest rel s t).2.2 := by
  have hnb := buildSuitePath_nonblank rel t
  have hnodup := prefixKeys_nodup (buildSuitePath rel t) [] hnb
  obtain ⟨hT, hN, hP⟩ := suiteLoop_fresh s.testRunId (buildSuitePath rel t) [] s.suites
    s.nextUuid none hfresh hnodup
  obtain ⟨u1, hu1, hu1mem⟩ := suiteLoop_parent_memoized s.testRunId (buildSuitePath rel t)
    [] s.suites s.nextUuid none hpath
  have hfirst : getOrStartSuiteForTest rel s t =
      ({ s with
          suites := (suiteLoop s.testRunId [] s.suites s.nextUuid none
            (buildSuitePath rel t)).suites,
          nextUuid := (suiteLoop s.testRunId [] s.suites s.nextUuid none
            (buildSuitePath rel t)).nextUuid },
        (suiteLoop s.testRunId [] s.suites s.nextUuid none (buildSuitePath rel t)).trace,
        Except.ok u1) := by
    simp [getOrStartSuiteForTest, hu1]
  have hmemo := suiteLoop_memoized s.testRunId (buildSuitePath rel t) []
    (suiteLoop s.testRunId [] s.suites s.nextUuid none (buildSuitePath rel t)).suites
    (suiteLoop s.testRunId [] s.suites s.nextUuid none (buildSuitePath rel t)).nextUuid none
    (fun k hk => suiteLoop_mem_after s.testRunId (buildSuitePath rel t) [] s.suites
      s.nextUuid none k hk)
  obtain ⟨u2, hu2, hu2mem⟩ := suiteLoop_parent_memoized s.testRunId (buildSuitePath rel t)
    []
    (suiteLoop s.testRunId [] s.suites s.nextUuid none (buildSuitePath rel t)).suites
    (suiteLoop s.testRunId [] s.suites s.nextUuid none (buildSuitePath rel t)).nextUuid none
    hpath
  have hu12 : u2 = u1 := by
    rw [hmemo.2.1] at hu2mem
    rw [hu2mem] at hu1mem
    exact (Option.some.injEq _ _).mp hu1mem
  refine ⟨?_, ?_, hnodup, ?_, ?_⟩
  · rw [hfirst]
    exact hT
  · rw [hfirst]
    rw [hT]
    rw [prefixKeys_length]
    clear hT hN hP hu1 hu1mem hfirst hmemo hu2 hu2mem hu12 hfresh hpath hsame
    generalize s.nextUuid = n
    generalize (none : Option Nat) = p
    induction buildSuitePath rel t generalizing n p with
    | nil => rfl
    | cons a as ih => simp [freshSuiteTrace, ih]
  · rw [hfirst]
    simp only [getOrStartSuiteForTest, hsame]
    cases hp2 : (suiteLoop s.testRunId []
        (suiteLoop s.testRunId [] s.suites s.nextUuid none (buildSuitePath rel t)).suites
        (suiteLoop s.testRunId [] s.suites s.nextUuid none (buildSuitePath rel t)).nextUuid
        none (buildSuitePath rel t)).parent with
    | some u => simp [hmemo.1]
    | none => simp [hmemo.1]
  · rw [hfirst]
    simp only [getOrStartSuiteForTest, hsame]
    rw [hu2]
    simp [hu12]

/-- Witness for `suite_resolution_memoized`: a two-level path resolved twice
(once for a second test with the same path). -/
theorem suite_resolution_memoized_witness :
    (let s : Reporter :=
       { config := { testset := "set", description := none, attributes := [] },
         testRunId := some 0, suites := [], tests := [], promises := [],
         bufferedLogs := [], coverage := none, nextUuid := 1 }
     let t : TestCase :=
       { id := "ta", name := "a", module := none, suiteChain := ["inner", "outer"],
         location := none, result := none }
     let t' : TestCase :=
       { id := "tb", name := "b", module := none, suiteChain := ["inner", "outer"],
         location := none, result := none }
     (getOrStartSuiteForTest id s t).2.1 =
       freshSuiteTrace s.testRunId none s.nextUuid (buildSuitePath id t) ∧
     (getOrStartSuiteForTest id s t).2.1.length =
       (prefixKeys [] (buildSuitePath id t)).length ∧
     (prefixKeys [] (buildSuitePath id t)).Nodup ∧
     (getOrStartSuiteForTest id (getOrStartSuiteForTest id s t).1 t').2.1 = [] ∧
     (getOrStartSuiteForTest id (getOrStartSuiteForTest id s t).1 t').2.2 =
       (getOrStartSuiteForTest id s t).2.2) := by
  exact suite_resolution_memoized id
    { config := { testset := "set", description := none, attributes := [] },
      testRunId := some 0, suites := [], tests := [], promises := [],
      bufferedLogs := [], coverage := none, nextUuid := 1 }
    { id := "ta", name := "a", module := none, suiteChain := ["inner", "outer"],
      location := none, result := none }
    { id := "tb", name := "b", module := none, suiteChain := ["inner", "outer"],
      location := none, result := none }
    (by decide) (by decide) (by decide)

end OrangebeardVitest
